import Mathlib

/-!
# Verification of the dg_content_manager catalog and deduplication engine

Shallow embedding, in Lean 4, of the core of the `dg_content_manager`
repository: the multi-chunk hash engine (`scanner/hashing.py`), the catalog
repositories (`database/files.py`, `database/paths.py`,
`database/duplicates.py`, `database/statistics.py`, `database/connection.py`)
and the deduplication engine (`deduplication/deduplicator.py`).

Modelling conventions:
* Files on disk are byte lists (`List Nat`); the MD5 digest and the text
  encoding are abstract parameters, since no claim depends on the digest
  function itself.
* Filesystem paths are lists of components (`List String`), taken to be
  absolute and already resolved (`Path.resolve` is the identity in the
  model); the set of existing regular files is a `List` of paths with
  membership semantics.
* SQLite rows are Lean structures; a table is a `List` of rows kept in
  ascending-id (insertion) order, so `ORDER BY id ASC` queries are plain
  filters.
* Timestamps (`utc_now()`) are opaque strings supplied as parameters.
* Fallible I/O that the claims do not touch (moving a file whose source
  exists, creating a symlink) is modelled as succeeding.
-/

namespace DG

/-! ## Hash engine (`scanner/hashing.py`) -/

/-- `HASH_CHUNK_SIZE` from `config.py`. -/
def HASH_CHUNK_SIZE : Nat := 1024

/-- `HASH_MIN_SIZE_FOR_MULTI_CHUNK` from `config.py`. -/
def HASH_MIN_SIZE_FOR_MULTI_CHUNK : Nat := 5120

/-- A positioned read `f.read(n)` after `f.seek(pos)` on a file whose bytes
are `content`. -/
def fileRead (content : List Nat) (pos n : Nat) : List Nat :=
  (content.drop pos).take n

/-- `calculate_file_hash_multi_chunk` from `scanner/hashing.py`, over a file
that exists and whose content is `content`.  `md5` abstracts
`hashlib.md5(·).hexdigest()` on bytes and `encode` abstracts `str.encode`.
The seek arithmetic follows the source: read 1 KB at offset 0, read 1 KB at
`size - 1024` (`f.seek(-HASH_CHUNK_SIZE, os.SEEK_END)`), read 1 KB at
`middle_position - HASH_CHUNK_SIZE // 2`, then hash the concatenated hex
digests. -/
def calculate_file_hash_multi_chunk (md5 : List Nat → String)
    (encode : String → List Nat) (content : List Nat) : String :=
  let file_size := content.length
  if file_size < HASH_MIN_SIZE_FOR_MULTI_CHUNK then
    md5 content
  else
    let first_chunk := fileRead content 0 HASH_CHUNK_SIZE
    let first_hash := md5 first_chunk
    let last_chunk := fileRead content (file_size - HASH_CHUNK_SIZE) HASH_CHUNK_SIZE
    let last_hash := md5 last_chunk
    let middle_position := file_size / 2
    let middle_chunk := fileRead content (middle_position - HASH_CHUNK_SIZE / 2) HASH_CHUNK_SIZE
    let middle_hash := md5 middle_chunk
    md5 (encode (first_hash ++ middle_hash ++ last_hash))

theorem fileRead_congr (c1 c2 : List Nat) (pos n : Nat)
    (h : ∀ j, j < n → c1[pos + j]? = c2[pos + j]?) :
    fileRead c1 pos n = fileRead c2 pos n := by
  apply List.ext_getElem?
  intro j
  rcases lt_or_ge j n with hj | hj
  · rw [fileRead, fileRead, List.getElem?_take_of_lt hj,
      List.getElem?_take_of_lt hj, List.getElem?_drop, List.getElem?_drop]
    exact h j hj
  · rw [List.getElem?_eq_none, List.getElem?_eq_none]
    · exact le_trans (List.length_take_le _ _) hj
    · exact le_trans (List.length_take_le _ _) hj

/-- C2: for files under 5,120 bytes the fingerprint is a single-pass hash of
the whole content; for files of at least 5,120 bytes it hashes exactly the
windows `[0, 1024)`, `[midpoint - 512, midpoint + 512)` and
`[size - 1024, size)`, concatenates the hex digests and hashes the encoded
concatenation; consequently the fingerprint is unaffected by changes strictly
between byte 1,024 and `midpoint - 512` or between `midpoint + 512` and
`size - 1,024`. -/
theorem fingerprint_window_spec (md5 : List Nat → String)
    (encode : String → List Nat) (c1 c2 : List Nat) :
    (c1.length < 5120 → calculate_file_hash_multi_chunk md5 encode c1 = md5 c1) ∧
    (5120 ≤ c1.length →
      calculate_file_hash_multi_chunk md5 encode c1 =
        md5 (encode (md5 (fileRead c1 0 1024) ++
          md5 (fileRead c1 (c1.length / 2 - 512) 1024) ++
          md5 (fileRead c1 (c1.length - 1024) 1024)))) ∧
    (c1.length = c2.length → 5120 ≤ c1.length →
      (∀ i : Nat,
          ¬((1024 < i ∧ i < c1.length / 2 - 512) ∨
            (c1.length / 2 + 512 < i ∧ i < c1.length - 1024)) →
          c1[i]? = c2[i]?) →
      calculate_file_hash_multi_chunk md5 encode c1 =
        calculate_file_hash_multi_chunk md5 encode c2) := by
  refine ⟨?_, ?_, ?_⟩
  · intro h
    simp only [calculate_file_hash_multi_chunk, HASH_MIN_SIZE_FOR_MULTI_CHUNK]
    rw [if_pos h]
  · intro h
    simp only [calculate_file_hash_multi_chunk, HASH_MIN_SIZE_FOR_MULTI_CHUNK,
      HASH_CHUNK_SIZE]
    rw [if_neg (by omega)]
  · intro hlen hsz hagree
    simp only [calculate_file_hash_multi_chunk, HASH_MIN_SIZE_FOR_MULTI_CHUNK,
      HASH_CHUNK_SIZE]
    rw [if_neg (by omega), if_neg (by omega)]
    rw [← hlen]
    have h1 : fileRead c1 0 1024 = fileRead c2 0 1024 := by
      apply fileRead_congr
      intro j hj
      exact hagree (0 + j) (by omega)
    have h2 : fileRead c1 (c1.length / 2 - 512) 1024 =
        fileRead c2 (c1.length / 2 - 512) 1024 := by
      apply fileRead_congr
      intro j hj
      exact hagree _ (by omega)
    have h3 : fileRead c1 (c1.length - 1024) 1024 =
        fileRead c2 (c1.length - 1024) 1024 := by
      apply fileRead_congr
      intro j hj
      exact hagree _ (by omega)
    rw [h1, h2, h3]

theorem fingerprint_window_spec_witness :
    ((List.replicate 5120 0).length = (List.replicate 5120 0).length ∧
      5120 ≤ (List.replicate 5120 0).length) ∧
    calculate_file_hash_multi_chunk (fun l => toString l.length)
        (fun s => [s.length]) (List.replicate 5120 0) =
      calculate_file_hash_multi_chunk (fun l => toString l.length)
        (fun s => [s.length]) (List.replicate 5120 0) :=
  ⟨⟨rfl, by rw [List.length_replicate]⟩,
    (fingerprint_window_spec (fun l => toString l.length) (fun s => [s.length])
        (List.replicate 5120 0) (List.replicate 5120 0)).2.2
      rfl (by rw [List.length_replicate]) (fun i _ => rfl)⟩

/-! ## Catalog data model (`database/schema.py`)

A filesystem path is a list of components, taken to be absolute and already
resolved.  Tables are lists of rows; rows carry the columns of the schema in
`database/schema.py`.  `id` columns are `Nat`; nullable columns are
`Option`.  Timestamp columns are opaque strings. -/

/-- An absolute, resolved filesystem path, as its list of components. -/
abbrev FPath := List String

/-- A row of the `files` table. -/
structure FileRec where
  id : Nat
  originalPath : FPath
  fileName : String
  fileSizeBytes : Nat
  fileHash : Option String
  createdAt : Option String
  year : String
  month : String
  monthDay : String
  projectName : String
  scanTimestamp : String
  isDuplicate : Bool
  masterFileId : Option Nat
  dedupStatus : String
  dedupTimestamp : Option String
  deriving DecidableEq, Repr, Inhabited

/-- A row of the `paths` table. -/
structure PathEnt where
  fileId : Nat
  pathType : String
  path : FPath
  deriving DecidableEq, Repr

/-- A row of the `duplicate_groups` table. -/
structure GroupRec where
  id : Nat
  groupHash : String
  fileSizeBytes : Nat
  masterFileId : Option Nat
  duplicateCount : Nat
  totalSizeBytes : Nat
  spaceSavedBytes : Nat
  deduplicatedAt : Option String
  deriving DecidableEq, Repr

/-- A row of the `statistics` table. -/
structure StatRec where
  statName : String
  statValue : String
  statType : String
  updatedAt : String
  deriving DecidableEq, Repr

/-- The catalog database state. -/
structure Catalog where
  files : List FileRec
  pathEnts : List PathEnt
  groups : List GroupRec
  stats : List StatRec
  deriving DecidableEq, Repr

/-! ## File repository (`database/files.py`) -/

/-- `FileRepository.record_file`: `INSERT ... ON CONFLICT(original_path) DO
UPDATE` on the `files` table, returning the updated table and the row id.
The conflict branch updates exactly the columns listed in the source SQL;
`scan_ts` stands for the `utc_now()` computed at entry.  A fresh id is the
successor of the largest id in the table (`AUTOINCREMENT`). -/
def record_file (files : List FileRec) (original_path : FPath)
    (file_name : String) (file_size_bytes : Nat) (created_at : Option String)
    (year month month_day project_name : String) (scan_ts : String) :
    List FileRec × Nat :=
  if files.any (fun f => f.originalPath = original_path) then
    (files.map (fun f =>
      if f.originalPath = original_path then
        { f with
          fileName := file_name,
          fileSizeBytes := file_size_bytes,
          createdAt := created_at,
          year := year,
          month := month,
          monthDay := month_day,
          projectName := project_name,
          scanTimestamp := scan_ts }
      else f),
     (((files.find? (fun f => f.originalPath = original_path)).map
        (fun f => f.id)).getD 0))
  else
    let newId := (files.map (fun f => f.id)).foldr max 0 + 1
    let newRec : FileRec :=
      { id := newId, originalPath := original_path, fileName := file_name,
        fileSizeBytes := file_size_bytes, fileHash := none,
        createdAt := created_at, year := year, month := month,
        monthDay := month_day, projectName := project_name,
        scanTimestamp := scan_ts, isDuplicate := false, masterFileId := none,
        dedupStatus := "not_processed", dedupTimestamp := none }
    (files ++ [newRec], newId)

/-- C10: re-recording a file whose original path is already in the catalog
updates only the name, size, created-at, year, month, day, project and scan
timestamp columns, and leaves `file_hash`, `is_duplicate`, `master_file_id`,
`deduplication_status` and `deduplication_timestamp` (as well as `id` and
`original_path`) unchanged; rows with other paths are untouched. -/
theorem record_file_update_frame (files : List FileRec) (p : FPath)
    (nm : String) (sz : Nat) (ca : Option String) (y mo md pr ts : String)
    (hex : ∃ f ∈ files, f.originalPath = p) :
    List.Forall₂ (fun f g =>
        (f.originalPath ≠ p → g = f) ∧
        (f.originalPath = p →
          g.id = f.id ∧ g.originalPath = f.originalPath ∧
          g.fileHash = f.fileHash ∧ g.isDuplicate = f.isDuplicate ∧
          g.masterFileId = f.masterFileId ∧ g.dedupStatus = f.dedupStatus ∧
          g.dedupTimestamp = f.dedupTimestamp ∧
          g.fileName = nm ∧ g.fileSizeBytes = sz ∧ g.createdAt = ca ∧
          g.year = y ∧ g.month = mo ∧ g.monthDay = md ∧
          g.projectName = pr ∧ g.scanTimestamp = ts))
      files (record_file files p nm sz ca y mo md pr ts).1 := by
  obtain ⟨f0, hf0, hf0p⟩ := hex
  have hany : (files.any fun f => f.originalPath = p) = true := by
    rw [List.any_eq_true]
    exact ⟨f0, hf0, by simp [hf0p]⟩
  simp only [record_file, hany, if_true]
  rw [List.forall₂_map_right_iff, List.forall₂_same]
  intro f _
  by_cases hfp : f.originalPath = p
  · simp [hfp]
  · simp [hfp]

/-- A concrete catalog row used by witnesses. -/
def sampleFileRec : FileRec :=
  { id := 1, originalPath := ["data", "a.mov"], fileName := "a.mov",
    fileSizeBytes := 5, fileHash := some "h", createdAt := none,
    year := "2020", month := "01", monthDay := "02", projectName := "pr",
    scanTimestamp := "t0", isDuplicate := true, masterFileId := some 7,
    dedupStatus := "deduplicated", dedupTimestamp := some "t1" }

theorem record_file_update_frame_witness :
    (∃ f ∈ [sampleFileRec], f.originalPath = ["data", "a.mov"]) ∧
    List.Forall₂ (fun f g =>
        (f.originalPath ≠ ["data", "a.mov"] → g = f) ∧
        (f.originalPath = ["data", "a.mov"] →
          g.id = f.id ∧ g.originalPath = f.originalPath ∧
          g.fileHash = f.fileHash ∧ g.isDuplicate = f.isDuplicate ∧
          g.masterFileId = f.masterFileId ∧ g.dedupStatus = f.dedupStatus ∧
          g.dedupTimestamp = f.dedupTimestamp ∧
          g.fileName = "b.mov" ∧ g.fileSizeBytes = 6 ∧ g.createdAt = none ∧
          g.year = "2021" ∧ g.month = "02" ∧ g.monthDay = "03" ∧
          g.projectName = "pr2" ∧ g.scanTimestamp = "t2"))
      [sampleFileRec]
      (record_file [sampleFileRec] ["data", "a.mov"] "b.mov" 6 none
        "2021" "02" "03" "pr2" "t2").1 :=
  ⟨⟨_, List.mem_singleton.mpr rfl, rfl⟩,
    record_file_update_frame _ _ _ _ _ _ _ _ _ _
      ⟨_, List.mem_singleton.mpr rfl, rfl⟩⟩

/-- `FileRepository.mark_deduplicated`: set `deduplication_status` and
`deduplication_timestamp` for the row with the given id. -/
def mark_deduplicated (files : List FileRec) (file_id : Nat) (status : String)
    (ts : String) : List FileRec :=
  files.map (fun f =>
    if f.id = file_id then
      { f with dedupStatus := status, dedupTimestamp := some ts }
    else f)

/-! ## Duplicate repository (`database/duplicates.py`) -/

/-- The per-row `UPDATE` issued inside the loop of
`DuplicateRepository.handle_duplicate_hash`: the row whose id matches
`row.id` gets `is_duplicate = (row.id != master_id)` and
`master_file_id = NULL if row.id == master_id else master_id`. -/
def dupRowUpdate (master_id : Nat) (row : FileRec) (f : FileRec) : FileRec :=
  if f.id = row.id then
    { f with
      isDuplicate := row.id ≠ master_id,
      masterFileId := if row.id = master_id then none else some master_id }
  else f

/-- `DuplicateRepository.handle_duplicate_hash`.  Fetches all `files` rows
with the given hash in ascending id order (the model keeps `cat.files` in
that order, so the query is a filter); with at most one row it deletes the
group row and clears duplicate/master fields, otherwise it upserts the group
row and rewrites every member's duplicate/master fields, the first fetched
row being the master (`rows[0]`, via `headI`; the guard makes the row list
non-empty in that branch). -/
def handle_duplicate_hash (cat : Catalog) (file_hash : String) : Catalog :=
  if file_hash = "" ∨ file_hash = "Error" ∨ file_hash = "Skipped" then cat
  else
    let rows := cat.files.filter (fun f => f.fileHash = some file_hash)
    if rows.length ≤ 1 then
      { cat with
        groups := cat.groups.filter (fun g => g.groupHash ≠ file_hash),
        files := cat.files.map (fun f =>
          if f.fileHash = some file_hash then
            { f with isDuplicate := false, masterFileId := none }
          else f) }
    else
      let r0 := rows.headI
      let master_id := r0.id
      let total_size := (rows.map (fun r => r.fileSizeBytes)).sum
      let master_size := r0.fileSizeBytes
      let duplicate_count := rows.length - 1
      let space_saved := total_size - master_size
      let groups' :=
        if cat.groups.any (fun g => g.groupHash = file_hash) then
          cat.groups.map (fun g =>
            if g.groupHash = file_hash then
              { g with
                masterFileId := some master_id,
                duplicateCount := duplicate_count,
                totalSizeBytes := total_size,
                spaceSavedBytes := space_saved }
            else g)
        else
          let newRow : GroupRec :=
            { id := (cat.groups.map (fun g => g.id)).foldr max 0 + 1,
              groupHash := file_hash, fileSizeBytes := r0.fileSizeBytes,
              masterFileId := some master_id,
              duplicateCount := duplicate_count,
              totalSizeBytes := total_size, spaceSavedBytes := space_saved,
              deduplicatedAt := none }
          cat.groups ++ [newRow]
      let files' := rows.foldl
        (fun fs row => fs.map (dupRowUpdate master_id row)) cat.files
      { cat with groups := groups', files := files' }

/-- A fold of per-row id-keyed updates over a row list equals a single map,
provided the update only depends on the matched row through its id, fixes
ids and is idempotent. -/
theorem foldl_map_update_eq_map (U : FileRec → FileRec)
    (W : FileRec → FileRec → FileRec)
    (hW : ∀ row f, f.id = row.id → W row f = U f)
    (hid : ∀ f, (U f).id = f.id) (hidem : ∀ f, U (U f) = U f)
    (rows : List FileRec) (files : List FileRec) :
    rows.foldl (fun fs row =>
        fs.map (fun f => if f.id = row.id then W row f else f)) files =
      files.map (fun f =>
        if rows.any (fun r => f.id = r.id) then U f else f) := by
  induction rows generalizing files with
  | nil => simp
  | cons r rows ih =>
    rw [List.foldl_cons, ih, List.map_map]
    apply List.map_congr_left
    intro f _
    simp only [Function.comp_apply, List.any_cons]
    by_cases hfr : f.id = r.id
    · rw [if_pos hfr, hW r f hfr, hid f, hidem f, ite_self]
      have hc : decide (f.id = r.id) = true := by simp [hfr]
      simp only [hc, Bool.true_or, if_true]
    · rw [if_neg hfr]
      have hc : decide (f.id = r.id) = false := by simp [hfr]
      simp only [hc, Bool.false_or]

/-- The member-update applied for a hash's rows with master `master_id`. -/
def dupMemberUpdate (master_id : Nat) (f : FileRec) : FileRec :=
  { f with
    isDuplicate := f.id ≠ master_id,
    masterFileId := if f.id = master_id then none else some master_id }

theorem foldl_dupRowUpdate (master_id : Nat) (rows files : List FileRec) :
    rows.foldl (fun fs row => fs.map (dupRowUpdate master_id row)) files =
      files.map (fun f =>
        if rows.any (fun r => f.id = r.id) then dupMemberUpdate master_id f
        else f) := by
  have h := foldl_map_update_eq_map (dupMemberUpdate master_id)
    (fun row f =>
      { f with
        isDuplicate := row.id ≠ master_id,
        masterFileId := if row.id = master_id then none else some master_id })
    (fun row f hf => by simp [dupMemberUpdate, hf])
    (fun f => rfl) (fun f => rfl) rows files
  exact h

/-- C1: `handle_duplicate_hash` applied to a real hash: with at most one
matching file it deletes the group row for the hash and clears the
duplicate/master fields of every matching file; with `N ≥ 2` matching files
(fetched in ascending id order, so the first is the lowest id) the first
becomes master (`is_duplicate = false`, `master_file_id = NULL`), every
other member points at it, and the group row is upserted with
`duplicate_count = N - 1`, `total_size_bytes` the sum of member sizes and
`space_saved_bytes = total - master size`.  Rows for other hashes and other
groups are untouched. -/
theorem handle_duplicate_hash_spec (cat : Catalog) (h : String)
    (hsorted : List.Pairwise (fun a b => a.id < b.id) cat.files)
    (hvalid : h ≠ "" ∧ h ≠ "Error" ∧ h ≠ "Skipped") :
    ((cat.files.filter (fun f => f.fileHash = some h)).length ≤ 1 →
      (∀ g ∈ (handle_duplicate_hash cat h).groups, g.groupHash ≠ h) ∧
      (∀ g ∈ cat.groups, g.groupHash ≠ h →
        g ∈ (handle_duplicate_hash cat h).groups) ∧
      List.Forall₂ (fun f g => g =
          if f.fileHash = some h then
            { f with isDuplicate := false, masterFileId := none }
          else f)
        cat.files (handle_duplicate_hash cat h).files) ∧
    (∀ m rest, cat.files.filter (fun f => f.fileHash = some h) = m :: rest →
      rest ≠ [] →
      (∀ r ∈ cat.files.filter (fun f => f.fileHash = some h), m.id ≤ r.id) ∧
      List.Forall₂ (fun f g => g =
          if f.fileHash = some h then dupMemberUpdate m.id f else f)
        cat.files (handle_duplicate_hash cat h).files ∧
      (∃ g ∈ (handle_duplicate_hash cat h).groups, g.groupHash = h) ∧
      (∀ g ∈ (handle_duplicate_hash cat h).groups, g.groupHash = h →
        g.masterFileId = some m.id ∧
        g.duplicateCount = (m :: rest).length - 1 ∧
        g.totalSizeBytes = ((m :: rest).map (fun r => r.fileSizeBytes)).sum ∧
        g.spaceSavedBytes =
          ((m :: rest).map (fun r => r.fileSizeBytes)).sum -
            m.fileSizeBytes) ∧
      (∀ g ∈ cat.groups, g.groupHash ≠ h →
        g ∈ (handle_duplicate_hash cat h).groups)) := by
  obtain ⟨hv1, hv2, hv3⟩ := hvalid
  have hguard : ¬(h = "" ∨ h = "Error" ∨ h = "Skipped") := by tauto
  constructor
  · intro hle
    simp only [handle_duplicate_hash, if_neg hguard, if_pos hle]
    refine ⟨?_, ?_, ?_⟩
    · intro g hg
      exact of_decide_eq_true (List.mem_filter.mp hg).2
    · intro g hg hne
      exact List.mem_filter.mpr ⟨hg, decide_eq_true hne⟩
    · rw [List.forall₂_map_right_iff]
      rw [List.forall₂_same]
      intro f _
      rfl
  · intro m rest hmr hrest
    have hlen2 : ¬((cat.files.filter (fun f => f.fileHash = some h)).length ≤ 1) := by
      rw [hmr]
      cases rest with
      | nil => exact absurd rfl hrest
      | cons b bs => simp only [List.length_cons]; omega
    have hrowsP : List.Pairwise (fun a b : FileRec => a.id < b.id)
        (cat.files.filter (fun f => f.fileHash = some h)) :=
      hsorted.sublist (List.filter_sublist cat.files)
    have hmle : ∀ r ∈ cat.files.filter (fun f => f.fileHash = some h),
        m.id ≤ r.id := by
      rw [hmr] at hrowsP ⊢
      intro r hr
      rcases List.mem_cons.mp hr with hr | hr
      · rw [hr]
      · exact le_of_lt ((List.pairwise_cons.mp hrowsP).1 r hr)
    have hhead : (cat.files.filter (fun f => f.fileHash = some h)).headI = m := by
      rw [hmr]; rfl
    refine ⟨hmle, ?_, ?_, ?_, ?_⟩
    · simp only [handle_duplicate_hash, if_neg hguard, if_neg hlen2,
        foldl_dupRowUpdate, hhead]
      rw [List.forall₂_map_right_iff, List.forall₂_same]
      intro f hf
      by_cases hfh : f.fileHash = some h
      · have hfmem : f ∈ cat.files.filter (fun f => f.fileHash = some h) :=
          List.mem_filter.mpr ⟨hf, decide_eq_true hfh⟩
        have hany : ((cat.files.filter (fun f => f.fileHash = some h)).any
            (fun r => f.id = r.id)) = true :=
          List.any_eq_true.mpr ⟨f, hfmem, decide_eq_true rfl⟩
        rw [if_pos hany, if_pos hfh]
      · have hnd : (cat.files.map (fun f => f.id)).Nodup := by
          refine List.Pairwise.map (fun f => f.id) ?_ hsorted
          intro a b hab
          exact Nat.ne_of_lt hab
        have hinj := List.inj_on_of_nodup_map hnd
        have hany : ((cat.files.filter (fun f => f.fileHash = some h)).any
            (fun r => f.id = r.id)) = false := by
          rw [List.any_eq_false]
          intro r hrmem hdec
          have hid : f.id = r.id := of_decide_eq_true hdec
          have hfr : f = r := hinj hf (List.mem_of_mem_filter hrmem) hid
          rw [hfr] at hfh
          exact hfh (of_decide_eq_true (List.mem_filter.mp hrmem).2)
        rw [if_neg (by rw [hany]; exact Bool.false_ne_true), if_neg hfh]
    · simp only [handle_duplicate_hash, if_neg hguard, if_neg hlen2, hhead]
      by_cases hgany : (cat.groups.any (fun g => g.groupHash = h)) = true
      · rw [if_pos hgany]
        obtain ⟨g0, hg0, hg0h⟩ := List.any_eq_true.mp hgany
        refine ⟨_, List.mem_map_of_mem _ hg0, ?_⟩
        rw [if_pos (of_decide_eq_true hg0h)]
        exact of_decide_eq_true hg0h
      · rw [if_neg hgany]
        exact ⟨_, List.mem_append_right _ (List.mem_singleton.mpr rfl), rfl⟩
    · simp only [handle_duplicate_hash, if_neg hguard, if_neg hlen2, hhead]
      by_cases hgany : (cat.groups.any (fun g => g.groupHash = h)) = true
      · rw [if_pos hgany]
        intro g hg hgh
        obtain ⟨g0, hg0, hg0e⟩ := List.mem_map.mp hg
        by_cases hg0h : g0.groupHash = h
        · rw [if_pos hg0h] at hg0e
          rw [← hg0e, hmr]
          exact ⟨rfl, rfl, rfl, rfl⟩
        · rw [if_neg hg0h] at hg0e
          rw [← hg0e] at hgh
          exact absurd hgh hg0h
      · rw [if_neg hgany]
        intro g hg hgh
        rcases List.mem_append.mp hg with hg | hg
        · have hfalse : (cat.groups.any (fun g => g.groupHash = h)) = false :=
            Bool.eq_false_iff.mpr hgany
          exact absurd (decide_eq_true hgh) (List.any_eq_false.mp hfalse g hg)
        · rw [List.mem_singleton.mp hg, hmr]
          exact ⟨rfl, rfl, rfl, rfl⟩
    · simp only [handle_duplicate_hash, if_neg hguard, if_neg hlen2, hhead]
      by_cases hgany : (cat.groups.any (fun g => g.groupHash = h)) = true
      · rw [if_pos hgany]
        intro g hg hgh
        refine List.mem_map.mpr ⟨g, hg, ?_⟩
        rw [if_neg hgh]
      · rw [if_neg hgany]
        intro g hg _
        exact List.mem_append_left _ hg

/-- First member of the witness duplicate pair. -/
def dupF1 : FileRec :=
  { sampleFileRec with
      id := 1, fileHash := some "h", fileSizeBytes := 10,
      isDuplicate := false, masterFileId := none }

/-- Second member of the witness duplicate pair. -/
def dupF2 : FileRec :=
  { sampleFileRec with
      id := 2, fileHash := some "h", fileSizeBytes := 20,
      isDuplicate := false, masterFileId := none }

/-- A two-member duplicate catalog used by witnesses. -/
def dupCat : Catalog :=
  { files := [dupF1, dupF2], pathEnts := [], groups := [], stats := [] }

theorem handle_duplicate_hash_spec_witness :
    (List.Pairwise (fun a b : FileRec => a.id < b.id) dupCat.files ∧
      ("h" ≠ "" ∧ "h" ≠ "Error" ∧ "h" ≠ "Skipped")) ∧
    (((dupCat.files.filter (fun f => f.fileHash = some "h")).length ≤ 1 →
      (∀ g ∈ (handle_duplicate_hash dupCat "h").groups, g.groupHash ≠ "h") ∧
      (∀ g ∈ dupCat.groups, g.groupHash ≠ "h" →
        g ∈ (handle_duplicate_hash dupCat "h").groups) ∧
      List.Forall₂ (fun f g => g =
          if f.fileHash = some "h" then
            { f with isDuplicate := false, masterFileId := none }
          else f)
        dupCat.files (handle_duplicate_hash dupCat "h").files) ∧
    (∀ m rest, dupCat.files.filter (fun f => f.fileHash = some "h") = m :: rest →
      rest ≠ [] →
      (∀ r ∈ dupCat.files.filter (fun f => f.fileHash = some "h"), m.id ≤ r.id) ∧
      List.Forall₂ (fun f g => g =
          if f.fileHash = some "h" then dupMemberUpdate m.id f else f)
        dupCat.files (handle_duplicate_hash dupCat "h").files ∧
      (∃ g ∈ (handle_duplicate_hash dupCat "h").groups, g.groupHash = "h") ∧
      (∀ g ∈ (handle_duplicate_hash dupCat "h").groups, g.groupHash = "h" →
        g.masterFileId = some m.id ∧
        g.duplicateCount = (m :: rest).length - 1 ∧
        g.totalSizeBytes = ((m :: rest).map (fun r => r.fileSizeBytes)).sum ∧
        g.spaceSavedBytes =
          ((m :: rest).map (fun r => r.fileSizeBytes)).sum -
            m.fileSizeBytes) ∧
      (∀ g ∈ dupCat.groups, g.groupHash ≠ "h" →
        g ∈ (handle_duplicate_hash dupCat "h").groups))) :=
  ⟨⟨by simp [dupCat, dupF1, dupF2, sampleFileRec, List.pairwise_cons],
      by decide⟩,
    handle_duplicate_hash_spec dupCat "h"
      (by simp [dupCat, dupF1, dupF2, sampleFileRec, List.pairwise_cons])
      (by decide)⟩

/-! ## Catalog store retry layer (`database/connection.py`)

`DatabaseConnection.retry_operation` runs an operation for up to
`max_retries` attempts.  An attempt either returns, raises an
`sqlite3.OperationalError`/`sqlite3.DatabaseError`, or raises some other
exception; the model supplies the outcome of each attempt as a function of
the attempt index, and the result of the connection-health probe
(`SELECT 1`) likewise.  `str(e).lower()` is ASCII lower-casing; `in` is
substring containment. -/

/-- Outcome of one call of the wrapped operation. -/
inductive AttemptOut where
  | ok : AttemptOut
  | sqliteErr (msg : String) : AttemptOut
  | otherErr (msg : String) : AttemptOut
  deriving DecidableEq, Repr

/-- `str.lower()`. -/
def pyLower (s : String) : String := (s.data.map Char.toLower).asString

/-- Python `sub in s` substring containment. -/
def strContains (s sub : String) : Bool := decide (sub.data <:+: s.data)

/-- The retryable-error test of the first `except` clause:
locked / unable-to-open / malformed / missing-table messages. -/
def isRetryableSqlite (e : String) : Bool :=
  strContains e "unable to open database file" ||
  strContains e "database is locked" ||
  strContains e "database disk image is malformed" ||
  strContains e "no such table"

/-- Result of `retry_operation`: the operation returned, an exception
propagated, or (unreachably, with positive `max_retries`) the loop ended. -/
inductive RetryResult where
  | success : RetryResult
  | raised (e : AttemptOut) : RetryResult
  | exhausted : RetryResult
  deriving DecidableEq, Repr

/-- Observable trace of one `retry_operation` run. -/
structure RetryTrace where
  result : RetryResult
  calls : Nat
  sleeps : List ℚ
  reconnects : Nat
  deriving DecidableEq, Repr

/-- The `for attempt in range(max_retries)` loop of `retry_operation`,
from attempt index `attempt` with `fuel` iterations left
(`fuel = max_retries - attempt`).  A retryable sqlite error reconnects when
the message shows the handle is unusable (`unable to open database file`)
and otherwise probes the connection, reconnecting when the probe fails; any
other exception whose message mentions `unable to open` or `database`
always reconnects.  Each retry sleeps `retry_delay * 2 ** attempt`. -/
def retryGo (outcomes : Nat → AttemptOut) (probeOk : Nat → Bool)
    (retry_delay : ℚ) (max_retries : Nat) : Nat → Nat → RetryTrace
  | 0, _ => { result := .exhausted, calls := 0, sleeps := [], reconnects := 0 }
  | fuel + 1, attempt =>
    match outcomes attempt with
    | .ok =>
      { result := .success, calls := 1, sleeps := [], reconnects := 0 }
    | .sqliteErr msg =>
      let error_str := pyLower msg
      if isRetryableSqlite error_str = true ∧ attempt < max_retries - 1 then
        let reconnected : Nat :=
          if strContains error_str "unable to open database file" then 1
          else if probeOk attempt then 0 else 1
        let rest := retryGo outcomes probeOk retry_delay max_retries fuel
          (attempt + 1)
        { result := rest.result, calls := rest.calls + 1,
          sleeps := retry_delay * 2 ^ attempt :: rest.sleeps,
          reconnects := rest.reconnects + reconnected }
      else
        { result := .raised (.sqliteErr msg), calls := 1, sleeps := [],
          reconnects := 0 }
    | .otherErr msg =>
      let error_str := pyLower msg
      if (strContains error_str "unable to open" ||
          strContains error_str "database") = true ∧
          attempt < max_retries - 1 then
        let rest := retryGo outcomes probeOk retry_delay max_retries fuel
          (attempt + 1)
        { result := rest.result, calls := rest.calls + 1,
          sleeps := retry_delay * 2 ^ attempt :: rest.sleeps,
          reconnects := rest.reconnects + 1 }
      else
        { result := .raised (.otherErr msg), calls := 1, sleeps := [],
          reconnects := 0 }

/-- `DatabaseConnection.retry_operation` with its default arguments
(`max_retries = 5`, `retry_delay = 0.5`). -/
def retry_operation (outcomes : Nat → AttemptOut) (probeOk : Nat → Bool) :
    RetryTrace :=
  retryGo outcomes probeOk (1 / 2) 5 5 0

/-- An attempt outcome the source classifies as transient (retried). -/
def transient (e : AttemptOut) : Bool :=
  match e with
  | .ok => false
  | .sqliteErr m => isRetryableSqlite (pyLower m)
  | .otherErr m =>
    strContains (pyLower m) "unable to open" ||
    strContains (pyLower m) "database"

/-- Whether the handler reconnects before retrying this failure. -/
def reconnectsOn (e : AttemptOut) (probe : Bool) : Bool :=
  match e with
  | .ok => false
  | .sqliteErr m =>
    strContains (pyLower m) "unable to open database file" || !probe
  | .otherErr _ => true

theorem retryGo_calls_le (oc : Nat → AttemptOut) (pk : Nat → Bool) (d : ℚ)
    (m : Nat) : ∀ fuel a, (retryGo oc pk d m fuel a).calls ≤ fuel := by
  intro fuel
  induction fuel with
  | zero => intro a; simp [retryGo]
  | succ n ih =>
    intro a
    rw [retryGo]
    cases oc a with
    | ok => exact Nat.le_add_left 1 n
    | sqliteErr msg =>
      by_cases hc : isRetryableSqlite (pyLower msg) = true ∧ a < m - 1
      · simp only [if_pos hc]
        exact Nat.succ_le_succ (ih (a + 1))
      · simp only [if_neg hc]
        exact Nat.le_add_left 1 n
    | otherErr msg =>
      by_cases hc : (strContains (pyLower msg) "unable to open" ||
          strContains (pyLower msg) "database") = true ∧ a < m - 1
      · simp only [if_pos hc]
        exact Nat.succ_le_succ (ih (a + 1))
      · simp only [if_neg hc]
        exact Nat.le_add_left 1 n

theorem retryGo_transient_steps (oc : Nat → AttemptOut) (pk : Nat → Bool)
    (d : ℚ) (k : Nat) (hk : k ≤ 4)
    (htr : ∀ j, j < k → transient (oc j) = true) :
    retryGo oc pk d 5 5 0 =
      { result := (retryGo oc pk d 5 (5 - k) k).result,
        calls := k + (retryGo oc pk d 5 (5 - k) k).calls,
        sleeps := ((List.range k).map (fun j => d * 2 ^ j)) ++
          (retryGo oc pk d 5 (5 - k) k).sleeps,
        reconnects := ((List.range k).filter
            (fun j => reconnectsOn (oc j) (pk j))).length +
          (retryGo oc pk d 5 (5 - k) k).reconnects } := by
  induction k with
  | zero => simp
  | succ k ih =>
    rw [ih (by omega) (fun j hj => htr j (by omega))]
    have h5k : 5 - k = (4 - k) + 1 := by omega
    have h5k2 : 5 - (k + 1) = 4 - k := by omega
    rw [h5k, h5k2, retryGo]
    have htk := htr k (by omega)
    cases hek : oc k with
    | ok => rw [hek] at htk; simp [transient] at htk
    | sqliteErr msg =>
      rw [hek] at htk
      simp only [transient] at htk
      have hcond : isRetryableSqlite (pyLower msg) = true ∧ k < 5 - 1 :=
        ⟨htk, by omega⟩
      dsimp only
      rw [if_pos hcond]
      simp only [RetryTrace.mk.injEq]
      refine ⟨trivial, by omega, ?_, ?_⟩
      · rw [List.range_succ, List.map_append, List.append_assoc]
        rfl
      · rw [List.range_succ, List.filter_append, List.length_append]
        have hrec : (List.filter (fun j => reconnectsOn (oc j) (pk j))
            [k]).length =
            (if strContains (pyLower msg) "unable to open database file"
              then 1 else if pk k then 0 else 1) := by
          simp only [List.filter, hek, reconnectsOn]
          by_cases h1 : strContains (pyLower msg)
              "unable to open database file" = true
          · simp [h1]
          · cases hpk : pk k
            · simp [Bool.eq_false_iff.mpr h1, hpk]
            · simp [Bool.eq_false_iff.mpr h1, hpk]
        rw [hrec]
        omega
    | otherErr msg =>
      rw [hek] at htk
      simp only [transient] at htk
      have hcond : (strContains (pyLower msg) "unable to open" ||
          strContains (pyLower msg) "database") = true ∧ k < 5 - 1 :=
        ⟨htk, by omega⟩
      dsimp only
      rw [if_pos hcond]
      simp only [RetryTrace.mk.injEq]
      refine ⟨trivial, by omega, ?_, ?_⟩
      · rw [List.range_succ, List.map_append, List.append_assoc]
        rfl
      · rw [List.range_succ, List.filter_append, List.length_append]
        have hrec : (List.filter (fun j => reconnectsOn (oc j) (pk j))
            [k]).length = 1 := by
          simp [List.filter, hek, reconnectsOn]
        rw [hrec]
        omega

/-- C8: the retry layer makes at most 5 attempts; a run whose first `k`
attempts fail transiently sleeps `0.5 * 2 ^ j` before retry `j + 1` and
reconnects exactly on the failures whose message shows an unusable handle
(or whose probe fails); a non-transient failure at attempt `k` propagates
immediately after `k + 1` calls, with no further retry; five transient
failures exhaust the retries with backoff `[0.5, 1, 2, 4]`. -/
theorem retry_operation_policy (oc : Nat → AttemptOut) (pk : Nat → Bool) :
    ((retry_operation oc pk).calls ≤ 5) ∧
    (∀ k, k ≤ 4 → (∀ j, j < k → transient (oc j) = true) → oc k = .ok →
      retry_operation oc pk =
        { result := .success, calls := k + 1,
          sleeps := (List.range k).map (fun j => (1 / 2 : ℚ) * 2 ^ j),
          reconnects := ((List.range k).filter
            (fun j => reconnectsOn (oc j) (pk j))).length }) ∧
    (∀ k, k ≤ 4 → (∀ j, j < k → transient (oc j) = true) →
      transient (oc k) = false → oc k ≠ .ok →
      retry_operation oc pk =
        { result := .raised (oc k), calls := k + 1,
          sleeps := (List.range k).map (fun j => (1 / 2 : ℚ) * 2 ^ j),
          reconnects := ((List.range k).filter
            (fun j => reconnectsOn (oc j) (pk j))).length }) ∧
    ((∀ j, j < 5 → transient (oc j) = true) →
      retry_operation oc pk =
        { result := .raised (oc 4), calls := 5,
          sleeps := [1 / 2, 1, 2, 4],
          reconnects := ((List.range 4).filter
            (fun j => reconnectsOn (oc j) (pk j))).length }) := by
  refine ⟨retryGo_calls_le oc pk (1 / 2) 5 5 0, ?_, ?_, ?_⟩
  · intro k hk htr hok
    rw [retry_operation,
      retryGo_transient_steps oc pk (1 / 2) k hk htr]
    have h5k : 5 - k = (4 - k) + 1 := by omega
    rw [h5k, retryGo, hok]
    simp
  · intro k hk htr hnt hnok
    rw [retry_operation,
      retryGo_transient_steps oc pk (1 / 2) k hk htr]
    have h5k : 5 - k = (4 - k) + 1 := by omega
    rw [h5k, retryGo]
    cases hek : oc k with
    | ok => exact absurd hek hnok
    | sqliteErr msg =>
      rw [hek] at hnt
      simp only [transient] at hnt
      have hcond : ¬(isRetryableSqlite (pyLower msg) = true ∧ k < 5 - 1) := by
        intro hc
        rw [hnt] at hc
        exact Bool.false_ne_true hc.1
      dsimp only
      rw [if_neg hcond]
      simp
    | otherErr msg =>
      rw [hek] at hnt
      simp only [transient] at hnt
      have hcond : ¬((strContains (pyLower msg) "unable to open" ||
          strContains (pyLower msg) "database") = true ∧ k < 5 - 1) := by
        intro hc
        rw [hnt] at hc
        exact Bool.false_ne_true hc.1
      dsimp only
      rw [if_neg hcond]
      simp
  · intro htr
    rw [retry_operation,
      retryGo_transient_steps oc pk (1 / 2) 4 (by omega)
        (fun j hj => htr j (by omega))]
    have h54 : (5 : Nat) - 4 = 0 + 1 := by omega
    rw [h54, retryGo]
    have ht4 := htr 4 (by omega)
    have hsl : (List.range 4).map (fun j => (1 / 2 : ℚ) * 2 ^ j) =
        [1 / 2, 1, 2, 4] := by
      norm_num [List.range_succ]
    cases hek : oc 4 with
    | ok => rw [hek] at ht4; simp [transient] at ht4
    | sqliteErr msg =>
      rw [hek] at ht4
      simp only [transient] at ht4
      have hcond : ¬(isRetryableSqlite (pyLower msg) = true ∧ 4 < 5 - 1) := by
        intro hc
        omega
      dsimp only
      rw [if_neg hcond]
      simp only [RetryTrace.mk.injEq]
      exact ⟨trivial, trivial, by rw [List.append_nil]; exact hsl, by omega⟩
    | otherErr msg =>
      rw [hek] at ht4
      simp only [transient] at ht4
      have hcond : ¬((strContains (pyLower msg) "unable to open" ||
          strContains (pyLower msg) "database") = true ∧ 4 < 5 - 1) := by
        intro hc
        omega
      dsimp only
      rw [if_neg hcond]
      simp only [RetryTrace.mk.injEq]
      exact ⟨trivial, trivial, by rw [List.append_nil]; exact hsl, by omega⟩

/-- Attempt outcomes used by the retry witness: one locked-store failure,
then success. -/
def retryOutcomesW : Nat → AttemptOut :=
  fun j => if j = 0 then .sqliteErr "database is locked" else .ok

theorem retry_operation_policy_witness :
    ((1 : Nat) ≤ 4 ∧ (∀ j, j < 1 → transient (retryOutcomesW j) = true) ∧
      retryOutcomesW 1 = .ok) ∧
    retry_operation retryOutcomesW (fun _ => true) =
      { result := .success, calls := 1 + 1,
        sleeps := (List.range 1).map (fun j => (1 / 2 : ℚ) * 2 ^ j),
        reconnects := ((List.range 1).filter
          (fun j => reconnectsOn (retryOutcomesW j)
            ((fun _ => true) j))).length } :=
  ⟨⟨by omega,
      fun j hj => by
        have hj0 : j = 0 := by omega
        subst hj0
        decide,
      rfl⟩,
    (retry_operation_policy retryOutcomesW (fun _ => true)).2.1 1 (by omega)
      (fun j hj => by
        have hj0 : j = 0 := by omega
        subst hj0
        decide)
      rfl⟩

/-! ## String and path helpers for the deduplication engine
(`deduplication/deduplicator.py`) -/

/-- Python slice `s[a:b]` on a string (with `a ≤ b`). -/
def pySlice (s : String) (a b : Nat) : String :=
  ((s.data.drop a).take (b - a)).asString

/-- Python prefix slice `s[:k]`, where a negative `k` counts from the end. -/
def pyPrefix (s : String) (k : Int) : String :=
  if 0 ≤ k then (s.data.take k.toNat).asString
  else (s.data.take (s.length - (-k).toNat)).asString

/-- One character of `Deduplicator._sanitize_filename`: path separators and
the problematic characters are replaced by an underscore. -/
def sanitizeChar (c : Char) : Char :=
  if c = '/' ∨ c = '\\' ∨ c = '<' ∨ c = '>' ∨ c = ':' ∨ c = '"' ∨
      c = '|' ∨ c = '?' ∨ c = '*' then '_' else c

/-- `os.path.splitext` on a bare file name: split at the last dot, unless
every character before it is a dot. -/
def splitext (s : String) : String × String :=
  match (s.data.reverse.findIdx? (fun c => c = '.')) with
  | none => (s, "")
  | some i =>
    let dotpos := s.length - 1 - i
    if (s.data.take dotpos).all (fun c => c = '.') then (s, "")
    else ((s.data.take dotpos).asString, (s.data.drop dotpos).asString)

/-- `Deduplicator._sanitize_filename`. -/
def sanitize_filename (filename : String) : String :=
  let sanitized := (filename.data.map sanitizeChar).asString
  if 200 < sanitized.length then
    let nmext := splitext sanitized
    pyPrefix nmext.1 (200 - (nmext.2.length : Int)) ++ nmext.2
  else sanitized

/-- Length of the longest common component prefix of two paths. -/
def commonPrefixLen : FPath → FPath → Nat
  | a :: as, b :: bs => if a = b then commonPrefixLen as bs + 1 else 0
  | _, _ => 0

/-- `os.path.relpath(target, start)` over resolved absolute paths, rendered
with `/` separators (`os.curdir` when the paths coincide). -/
def relpathStr (target start : FPath) : String :=
  let cp := commonPrefixLen target start
  let comps := List.replicate (start.length - cp) ".." ++ target.drop cp
  if comps.isEmpty then "." else String.intercalate "/" comps

/-- Python `s.count("..")`: non-overlapping occurrences, scanning left to
right. -/
def countDotDotChars : List Char → Nat
  | '.' :: '.' :: rest => countDotDotChars rest + 1
  | _ :: rest => countDotDotChars rest
  | [] => 0

def countDotDot (s : String) : Nat := countDotDotChars s.data

/-! ## Filesystem model

`live` is the set of paths at which a regular file (or a symlink whose
target exists) currently exists; `dirs` the set of directories.  Lists with
membership semantics; insertion keeps a single occurrence. -/

structure FS where
  live : List FPath
  dirs : List FPath
  deriving DecidableEq, Repr

/-- Delete a path (all occurrences). -/
def removePath (fs : List FPath) (p : FPath) : List FPath :=
  fs.filter (fun q => q ≠ p)

/-- Create a file at a path. -/
def addPath (fs : List FPath) (p : FPath) : List FPath :=
  p :: removePath fs p

/-- `mkdir(exist_ok=True)`. -/
def addDir (ds : List FPath) (p : FPath) : List FPath :=
  if p ∈ ds then ds else p :: ds

/-! ## Path repository (`database/paths.py`) and remaining catalog ops -/

/-- `PathRepository.update_consolidated_path` (`INSERT OR IGNORE`). -/
def update_consolidated_path (cat : Catalog) (file_id : Nat) (p : FPath) :
    Catalog :=
  if cat.pathEnts.any (fun e =>
      e.fileId = file_id ∧ e.pathType = "consolidated" ∧ e.path = p) then cat
  else { cat with pathEnts := cat.pathEnts ++
    [{ fileId := file_id, pathType := "consolidated", path := p }] }

/-- `PathRepository.update_symlink_path` (`INSERT OR IGNORE`). -/
def update_symlink_path (cat : Catalog) (file_id : Nat) (p : FPath) :
    Catalog :=
  if cat.pathEnts.any (fun e =>
      e.fileId = file_id ∧ e.pathType = "symlink" ∧ e.path = p) then cat
  else { cat with pathEnts := cat.pathEnts ++
    [{ fileId := file_id, pathType := "symlink", path := p }] }

/-- `PathRepository.get_master_file_path` (`LIMIT 1` on table order). -/
def get_master_file_path (cat : Catalog) (file_id : Nat) : Option FPath :=
  ((cat.pathEnts.filter (fun e =>
    e.fileId = file_id ∧ e.pathType = "consolidated")).head?).map
    (fun e => e.path)

/-- `PathRepository.consolidated_path_exists`. -/
def consolidated_path_exists (cat : Catalog) (p : FPath) : Bool :=
  cat.pathEnts.any (fun e => e.pathType = "consolidated" ∧ e.path = p)

/-- `FileRepository.mark_deduplicated` lifted to the catalog. -/
def markDeduplicatedCat (cat : Catalog) (file_id : Nat) (status ts : String) :
    Catalog :=
  { cat with files := mark_deduplicated cat.files file_id status ts }

/-- `DuplicateRepository.get_duplicate_groups_for_processing`. -/
def get_duplicate_groups_for_processing (cat : Catalog) : List GroupRec :=
  cat.groups.filter (fun g => 0 < g.duplicateCount)

/-- `DuplicateRepository.get_duplicate_group_files`. -/
def get_duplicate_group_files (cat : Catalog) (h : String) : List FileRec :=
  cat.files.filter (fun f => f.fileHash = some h)

/-- `Deduplicator._get_unique_files`. -/
def get_unique_files (cat : Catalog) : List FileRec :=
  cat.files.filter (fun f =>
    f.dedupStatus = "not_processed" ∧ f.isDuplicate = false ∧
    f.masterFileId = none)

/-- `DuplicateRepository.update_group_deduplicated`. -/
def update_group_deduplicated (cat : Catalog) (h ts : String) : Catalog :=
  { cat with groups := cat.groups.map (fun g =>
      if g.groupHash = h then { g with deduplicatedAt := some ts } else g) }

/-- Upsert of one `statistics` row. -/
def upsertStat (stats : List StatRec) (nm val ty ts : String) :
    List StatRec :=
  if stats.any (fun r => r.statName = nm) then
    stats.map (fun r =>
      if r.statName = nm then
        { r with statValue := val, statType := ty, updatedAt := ts }
      else r)
  else
    let newRow : StatRec :=
      { statName := nm, statValue := val, statType := ty, updatedAt := ts }
    stats ++ [newRow]

/-- `StatisticsRepository.update_deduplication_statistics`: the three
engine counters are overwritten with `str(value)` of the run's counts. -/
def update_deduplication_statistics (cat : Catalog)
    (files_consolidated symlinks_created files_deduplicated : Nat)
    (ts : String) : Catalog :=
  let s1 := upsertStat cat.stats "files_consolidated"
    (Nat.repr files_consolidated) "integer" ts
  let s2 := upsertStat s1 "symlinks_created"
    (Nat.repr symlinks_created) "integer" ts
  let s3 := upsertStat s2 "files_deduplicated"
    (Nat.repr files_deduplicated) "integer" ts
  { cat with stats := s3 }

/-! ## Deduplication engine (`deduplication/deduplicator.py`)

The engine is a pure function on a state carrying the catalog, the
filesystem, the in-memory `self.stats` dictionary (errors modelled as a
count), and a trace of the filesystem side effects of the run (file moves
and symlink creations).  `_preflight_checks` always passes in the model
(consolidation directory writable, enough disk space); the interactive
confirmation and platform-specific failure branches are outside every
claim. -/

/-- The in-memory `self.stats` of a `Deduplicator`. -/
structure RunStats where
  filesConsolidated : Nat
  symlinksCreated : Nat
  filesDeduplicated : Nat
  errors : Nat
  deriving DecidableEq, Repr

/-- Engine state: catalog, filesystem, counters and side-effect trace. -/
structure EngSt where
  cat : Catalog
  fs : FS
  stats : RunStats
  moves : List (FPath × FPath)
  links : List (FPath × String)
  deriving DecidableEq, Repr

/-- Configuration of one run: `dry_run`, the consolidation base
(`consolidation_dir / "files"`) and the run's `utc_now()` timestamp. -/
structure DedupCfg where
  dryRun : Bool
  base : FPath
  ts : String
  deriving DecidableEq, Repr

/-- The `while consolidated_path.exists() or
self.db.consolidated_path_exists(...)` test. -/
def occupied (st : EngSt) (p : FPath) : Bool :=
  decide (p ∈ st.fs.live) || consolidated_path_exists st.cat p

/-- Candidate number `k` of the collision loop: the base filename for
`k = 0`, and `f"{name_part}_{counter}{ext_part}"` for `k ≥ 1`. -/
def consCandidate (dir : FPath) (base stem ext : String) (k : Nat) : FPath :=
  if k = 0 then dir ++ [base] else dir ++ [stem ++ "_" ++ Nat.repr k ++ ext]

/-- The collision loop, as first-free search with explicit fuel (the loop
in the source is unbounded; enough fuel is always provided, see
`findFreeFrom_not_occupied`). -/
def findFreeFrom (occ : FPath → Bool) (cand : Nat → FPath) :
    Nat → Nat → FPath
  | 0, k => cand k
  | fuel + 1, k =>
    if occ (cand k) = true then findFreeFrom occ cand fuel (k + 1)
    else cand k

/-- `Deduplicator._get_consolidated_path`. -/
def get_consolidated_path (st : EngSt) (base : FPath)
    (file_hash : Option String) (file_name : String) : FPath :=
  let hp :=
    match file_hash with
    | none => ("00", "00", "no_hash")
    | some h =>
      if h = "" ∨ h = "Error" ∨ h = "Skipped" then ("00", "00", "no_hash")
      else (pySlice h 0 2, pySlice h 2 4, h)
  let sanitized_name := sanitize_filename file_name
  let base_filename := hp.2.2 ++ "_" ++ sanitized_name
  let consolidated_dir := base ++ [hp.1, hp.2.1]
  let nmext := splitext base_filename
  findFreeFrom (occupied st)
    (consCandidate consolidated_dir base_filename nmext.1 nmext.2)
    (st.fs.live.length + st.cat.pathEnts.length + 1) 0

/-- `Deduplicator._preflight_checks`, modelled as passing: it creates the
consolidation folder and writes then deletes a `.test_write` probe file. -/
def preflight_checks (cfg : DedupCfg) (st : EngSt) : EngSt :=
  { st with fs :=
      { live := removePath st.fs.live (cfg.base ++ [".test_write"]),
        dirs := addDir st.fs.dirs cfg.base } }

/-- `Deduplicator._consolidate_unique_file`. -/
def consolidate_unique_file (cfg : DedupCfg) (st : EngSt) (row : FileRec) :
    EngSt × Option FPath :=
  if row.originalPath ∉ st.fs.live then
    ({ st with stats := { st.stats with errors := st.stats.errors + 1 } },
      none)
  else
    let consolidated_path :=
      get_consolidated_path st cfg.base row.fileHash row.fileName
    if cfg.dryRun then
      ({ st with stats :=
          { st.stats with
            filesConsolidated := st.stats.filesConsolidated + 1,
            filesDeduplicated := st.stats.filesDeduplicated + 1 } },
        some consolidated_path)
    else
      let fs' : FS :=
        { live := addPath (removePath st.fs.live row.originalPath)
            consolidated_path,
          dirs := addDir st.fs.dirs consolidated_path.dropLast }
      let cat' := markDeduplicatedCat
        (update_consolidated_path st.cat row.id consolidated_path)
        row.id "deduplicated" cfg.ts
      ({ cat := cat', fs := fs',
         stats := { st.stats with
           filesConsolidated := st.stats.filesConsolidated + 1,
           filesDeduplicated := st.stats.filesDeduplicated + 1 },
         moves := st.moves ++ [(row.originalPath, consolidated_path)],
         links := st.links }, some consolidated_path)

/-- The part of `Deduplicator._consolidate_master_file` that runs when the
master is not already consolidated (from the `original_path` check on). -/
def consolidate_master_move (cfg : DedupCfg) (st : EngSt)
    (master : FileRec) : EngSt × Option FPath :=
  if master.originalPath ∉ st.fs.live then
    ({ st with stats := { st.stats with errors := st.stats.errors + 1 } },
      none)
  else
    let consolidated_path :=
      get_consolidated_path st cfg.base master.fileHash master.fileName
    if cfg.dryRun then
      ({ st with stats :=
          { st.stats with
            filesConsolidated := st.stats.filesConsolidated + 1 } },
        some consolidated_path)
    else
      let fs' : FS :=
        { live := addPath (removePath st.fs.live master.originalPath)
            consolidated_path,
          dirs := addDir st.fs.dirs consolidated_path.dropLast }
      let cat' := markDeduplicatedCat
        (update_consolidated_path st.cat master.id consolidated_path)
        master.id "deduplicated" cfg.ts
      ({ cat := cat', fs := fs',
         stats := { st.stats with
           filesConsolidated := st.stats.filesConsolidated + 1 },
         moves := st.moves ++ [(master.originalPath, consolidated_path)],
         links := st.links }, some consolidated_path)

/-- `Deduplicator._consolidate_master_file`: reuse a recorded consolidated
path that still exists, else consolidate the original. -/
def consolidate_master_file (cfg : DedupCfg) (st : EngSt)
    (master : FileRec) : EngSt × Option FPath :=
  match get_master_file_path st.cat master.id with
  | some p => if p ∈ st.fs.live then (st, some p)
      else consolidate_master_move cfg st master
  | none => consolidate_master_move cfg st master

/-- `Deduplicator._create_symlink_for_duplicate`. -/
def create_symlink_for_duplicate (cfg : DedupCfg) (st : EngSt)
    (dup : FileRec) (master_path : FPath) : EngSt × Bool :=
  if master_path ∉ st.fs.live then
    ({ st with stats := { st.stats with errors := st.stats.errors + 1 } },
      false)
  else if dup.originalPath ∉ st.fs.live then
    (if cfg.dryRun then st
      else { st with
        cat := markDeduplicatedCat st.cat dup.id "deduplicated" cfg.ts },
      false)
  else if cfg.dryRun then
    ({ st with stats :=
        { st.stats with
          symlinksCreated := st.stats.symlinksCreated + 1,
          filesDeduplicated := st.stats.filesDeduplicated + 1 } }, true)
  else
    let relative_path := relpathStr master_path dup.originalPath.dropLast
    if 20 ≤ countDotDot relative_path then
      ({ st with stats := { st.stats with errors := st.stats.errors + 1 } },
        false)
    else
      let fs' : FS :=
        { live := addPath (removePath st.fs.live dup.originalPath)
            dup.originalPath,
          dirs := st.fs.dirs }
      let cat' := markDeduplicatedCat
        (update_symlink_path st.cat dup.id dup.originalPath)
        dup.id "deduplicated" cfg.ts
      ({ cat := cat', fs := fs',
         stats := { st.stats with
           symlinksCreated := st.stats.symlinksCreated + 1,
           filesDeduplicated := st.stats.filesDeduplicated + 1 },
         moves := st.moves,
         links := st.links ++ [(dup.originalPath, relative_path)] }, true)

/-- One iteration of the duplicate-group loop of
`Deduplicator.consolidate_files`. -/
def processGroup (cfg : DedupCfg) (st : EngSt) (group : GroupRec) : EngSt :=
  if group.deduplicatedAt.isSome then st
  else
    let group_files := get_duplicate_group_files st.cat group.groupHash
    if group_files.isEmpty then st
    else
      match group_files.find? (fun f => some f.id = group.masterFileId) with
      | none => st
      | some master_file =>
        match consolidate_master_file cfg st master_file with
        | (st1, none) => st1
        | (st1, some master_path) =>
          let st2 := group_files.foldl (fun s dup_file =>
            if dup_file.id ≠ master_file.id ∧
                dup_file.dedupStatus = "not_processed" then
              (create_symlink_for_duplicate cfg s dup_file master_path).1
            else s) st1
          if cfg.dryRun then st2
          else { st2 with
            cat := update_group_deduplicated st2.cat group.groupHash cfg.ts }

/-- `Deduplicator.consolidate_files`: pre-flight, unique-file pass,
duplicate-group pass, then (non-dry-run) persist the counters. -/
def consolidate_files (cfg : DedupCfg) (st0 : EngSt) : EngSt :=
  let st1 := preflight_checks cfg st0
  let unique_files := get_unique_files st1.cat
  let st2 := unique_files.foldl
    (fun s row => (consolidate_unique_file cfg s row).1) st1
  let duplicate_groups := get_duplicate_groups_for_processing st2.cat
  let st3 := duplicate_groups.foldl (processGroup cfg) st2
  if cfg.dryRun then st3
  else { st3 with
    cat := update_deduplication_statistics st3.cat
      st3.stats.filesConsolidated st3.stats.symlinksCreated
      st3.stats.filesDeduplicated cfg.ts }

/-- A full engine run over a catalog and filesystem, with a fresh
`Deduplicator` (zeroed in-memory stats, empty trace). -/
def runDedup (cfg : DedupCfg) (cat : Catalog) (fs : FS) : EngSt :=
  let zero : RunStats :=
    { filesConsolidated := 0, symlinksCreated := 0,
      filesDeduplicated := 0, errors := 0 }
  consolidate_files cfg
    { cat := cat, fs := fs, stats := zero, moves := [], links := [] }

/-! ## Injectivity of decimal rendering

The collision loop renders the counter with `Nat.repr`; distinct counters
give distinct file names.  `Nat.repr` is `(Nat.toDigits 10 n).asString`; we
relate it to a structurally recursive digit list and prove injectivity. -/

/-- The digit characters of `n` in base 10, most significant first. -/
def reprChars (n : Nat) : List Char :=
  if h : n < 10 then [Nat.digitChar n]
  else reprChars (n / 10) ++ [Nat.digitChar (n % 10)]
termination_by n
decreasing_by exact Nat.div_lt_self (by omega) (by omega)

theorem reprChars_ne_nil (n : Nat) : reprChars n ≠ [] := by
  rw [reprChars]
  split
  · simp
  · simp

theorem toDigitsCore_eq_reprChars :
    ∀ fuel n ds, n < fuel →
      Nat.toDigitsCore 10 fuel n ds = reprChars n ++ ds := by
  intro fuel
  induction fuel with
  | zero => intro n ds h; omega
  | succ f ih =>
    intro n ds h
    rw [Nat.toDigitsCore]
    by_cases h0 : n / 10 = 0
    · rw [if_pos h0]
      have hn : n < 10 := by omega
      rw [reprChars, dif_pos hn, Nat.mod_eq_of_lt hn]
      rfl
    · rw [if_neg h0]
      have hn10 : 10 ≤ n := by omega
      rw [ih (n / 10) (Nat.digitChar (n % 10) :: ds) (by omega)]
      have hrc : reprChars n = reprChars (n / 10) ++ [Nat.digitChar (n % 10)] := by
        rw [reprChars]
        rw [dif_neg (by omega)]
      rw [hrc, List.append_assoc]
      rfl

theorem digitChar_inj (a b : Nat) (ha : a < 10) (hb : b < 10)
    (h : Nat.digitChar a = Nat.digitChar b) : a = b := by
  interval_cases a <;> interval_cases b <;>
    first
      | rfl
      | exact absurd h (by decide)

theorem reprChars_inj (m : Nat) : ∀ n, reprChars m = reprChars n → m = n := by
  induction m using Nat.strong_induction_on with
  | _ m ih =>
    intro n h
    by_cases hm : m < 10 <;> by_cases hn : n < 10 <;>
      [skip; skip; skip; skip] <;>
      first
      | (have em : reprChars m = [Nat.digitChar m] := by
          rw [reprChars]; rw [dif_pos hm])
      | (have em : reprChars m =
            reprChars (m / 10) ++ [Nat.digitChar (m % 10)] := by
          rw [reprChars]; rw [dif_neg hm])
    all_goals
      first
      | (have en : reprChars n = [Nat.digitChar n] := by
          rw [reprChars]; rw [dif_pos hn])
      | (have en : reprChars n =
            reprChars (n / 10) ++ [Nat.digitChar (n % 10)] := by
          rw [reprChars]; rw [dif_neg hn])
    all_goals rw [em, en] at h
    · exact digitChar_inj m n hm hn (List.cons.injEq .. ▸ h).1
    · have hlen := congrArg List.length h
      simp only [List.length_cons, List.length_nil, List.length_append] at hlen
      have := List.length_pos.mpr (reprChars_ne_nil (n / 10))
      omega
    · have hlen := congrArg List.length h
      simp only [List.length_cons, List.length_nil, List.length_append] at hlen
      have := List.length_pos.mpr (reprChars_ne_nil (m / 10))
      omega
    ·
      have h2 := congrArg List.reverse h
      simp only [List.reverse_append, List.reverse_cons, List.reverse_nil,
        List.nil_append, List.singleton_append, List.cons.injEq] at h2
      have hdiv : m / 10 = n / 10 :=
        ih (m / 10) (Nat.div_lt_self (by omega) (by omega)) (n / 10)
          (List.reverse_injective h2.2)
      have hmod : m % 10 = n % 10 :=
        digitChar_inj _ _ (Nat.mod_lt _ (by omega)) (Nat.mod_lt _ (by omega))
          h2.1
      omega

theorem natRepr_data (n : Nat) : (Nat.repr n).data = reprChars n := by
  show (Nat.toDigits 10 n).asString.data = _
  rw [Nat.toDigits,
    toDigitsCore_eq_reprChars (n + 1) n [] (Nat.lt_succ_self n),
    List.append_nil]
  rfl

theorem natRepr_inj (m n : Nat) (h : Nat.repr m = Nat.repr n) : m = n := by
  apply reprChars_inj m n
  rw [← natRepr_data, ← natRepr_data, h]

theorem natRepr_length_pos (n : Nat) : 0 < (Nat.repr n).length := by
  show 0 < (Nat.repr n).data.length
  rw [natRepr_data]
  exact List.length_pos.mpr (reprChars_ne_nil n)

/-! ## The collision loop always finds a free path -/

theorem splitext_append (s : String) : (splitext s).1 ++ (splitext s).2 = s := by
  rw [splitext]
  cases hidx : s.data.reverse.findIdx? (fun c => c = '.') with
  | none => exact String.append_empty s
  | some i =>
    dsimp only
    split
    · exact String.append_empty s
    · apply String.ext
      rw [String.data_append]
      exact List.take_append_drop _ _

theorem consCandidate_inj (dir : FPath) (base stem ext : String)
    (hse : stem ++ ext = base) :
    Function.Injective (consCandidate dir base stem ext) := by
  have hone : ∀ a b : Nat, a = 0 → ¬b = 0 →
      consCandidate dir base stem ext a ≠ consCandidate dir base stem ext b := by
    intro a b ha hb h
    rw [consCandidate, consCandidate, if_pos ha, if_neg hb] at h
    have h1 : base = stem ++ "_" ++ Nat.repr b ++ ext := by
      simpa using List.append_cancel_left h
    have hlen := congrArg String.length h1
    rw [← hse] at hlen
    simp only [String.length_append] at hlen
    have := natRepr_length_pos b
    have h_ : ("_" : String).length = 1 := rfl
    omega
  intro a b h
  by_cases ha : a = 0 <;> by_cases hb : b = 0
  · rw [ha, hb]
  · exact absurd h (hone a b ha hb)
  · exact absurd h.symm (hone b a hb ha)
  · rw [consCandidate, consCandidate, if_neg ha, if_neg hb] at h
    have h1 : stem ++ "_" ++ Nat.repr a ++ ext =
        stem ++ "_" ++ Nat.repr b ++ ext := by
      simpa using List.append_cancel_left h
    have h2 := congrArg String.data h1
    simp only [String.data_append] at h2
    have h3 := List.append_cancel_right h2
    have h4 := List.append_cancel_left h3
    exact natRepr_inj a b (String.ext h4)

theorem findFreeFrom_is_cand (occ : FPath → Bool) (cand : Nat → FPath) :
    ∀ fuel k, ∃ j, findFreeFrom occ cand fuel k = cand j := by
  intro fuel
  induction fuel with
  | zero => intro k; exact ⟨k, rfl⟩
  | succ f ih =>
    intro k
    rw [findFreeFrom]
    by_cases h0 : occ (cand k) = true
    · rw [if_pos h0]; exact ih (k + 1)
    · rw [if_neg h0]; exact ⟨k, rfl⟩

theorem findFreeFrom_free (occ : FPath → Bool) (cand : Nat → FPath) :
    ∀ fuel k, (∃ j, j < fuel ∧ occ (cand (k + j)) = false) →
      occ (findFreeFrom occ cand fuel k) = false := by
  intro fuel
  induction fuel with
  | zero =>
    intro k hex
    obtain ⟨j, hj, _⟩ := hex
    omega
  | succ f ih =>
    intro k hex
    rw [findFreeFrom]
    by_cases h0 : occ (cand k) = true
    · rw [if_pos h0]
      apply ih
      obtain ⟨j, hjf, hocc⟩ := hex
      cases j with
      | zero =>
        rw [Nat.add_zero] at hocc
        rw [hocc] at h0
        exact absurd h0 Bool.false_ne_true
      | succ j' =>
        refine ⟨j', by omega, ?_⟩
        rw [show k + 1 + j' = k + (j' + 1) by omega]
        exact hocc
    · rw [if_neg h0]
      exact Bool.eq_false_iff.mpr h0

theorem occupied_mem (st : EngSt) (p : FPath) (h : occupied st p = true) :
    p ∈ st.fs.live ++ st.cat.pathEnts.map (fun e => e.path) := by
  rw [occupied, Bool.or_eq_true] at h
  cases h with
  | inl h => exact List.mem_append_left _ (of_decide_eq_true h)
  | inr h =>
    rw [consolidated_path_exists, List.any_eq_true] at h
    obtain ⟨e, he, hep⟩ := h
    exact List.mem_append_right _
      (List.mem_map.mpr ⟨e, he, (of_decide_eq_true hep).2⟩)

theorem exists_free_candidate (st : EngSt) (cand : Nat → FPath)
    (hinj : Function.Injective cand) :
    ∃ j, j < st.fs.live.length + st.cat.pathEnts.length + 1 ∧
      occupied st (cand j) = false := by
  by_contra hall
  push_neg at hall
  have hsub : (List.range
      (st.fs.live.length + st.cat.pathEnts.length + 1)).map cand ⊆
      st.fs.live ++ st.cat.pathEnts.map (fun e => e.path) := by
    intro p hp
    obtain ⟨j, hj, rfl⟩ := List.mem_map.mp hp
    have hjlt := List.mem_range.mp hj
    have hne := hall j hjlt
    have hocc : occupied st (cand j) = true := by
      cases hbool : occupied st (cand j) with
      | false => exact absurd hbool hne
      | true => rfl
    exact occupied_mem st _ hocc
  have hnd : ((List.range
      (st.fs.live.length + st.cat.pathEnts.length + 1)).map cand).Nodup :=
    List.Nodup.map hinj (List.nodup_range _)
  have hle := (List.subperm_of_subset hnd hsub).length_le
  simp only [List.length_map, List.length_range, List.length_append] at hle
  omega

/-- The consolidated path returned by `_get_consolidated_path` neither
exists on disk nor is registered as a consolidated path entry. -/
theorem get_consolidated_path_not_occupied (st : EngSt) (base : FPath)
    (fh : Option String) (nm : String) :
    occupied st (get_consolidated_path st base fh nm) = false := by
  have key : ∀ (dir : FPath) (bf : String),
      occupied st (findFreeFrom (occupied st)
        (consCandidate dir bf (splitext bf).1 (splitext bf).2)
        (st.fs.live.length + st.cat.pathEnts.length + 1) 0) = false := by
    intro dir bf
    apply findFreeFrom_free
    obtain ⟨j, hj, hfree⟩ := exists_free_candidate st
      (consCandidate dir bf (splitext bf).1 (splitext bf).2)
      (consCandidate_inj dir bf _ _ (splitext_append bf))
    exact ⟨j, hj, by rw [Nat.zero_add]; exact hfree⟩
  rw [get_consolidated_path.eq_def]
  cases fh with
  | none => exact key _ _
  | some h =>
    by_cases hh : h = "" ∨ h = "Error" ∨ h = "Skipped"
    · dsimp only
      rw [if_pos hh]
      exact key _ _
    · dsimp only
      rw [if_neg hh]
      exact key _ _

theorem splitext_stem_prefix (pre t : String)
    (hpre : ∀ c ∈ pre.data, ¬(c = '.')) :
    pre.data <+: ((splitext (pre ++ t)).1).data := by
  rw [splitext]
  cases hidx : (pre ++ t).data.reverse.findIdx? (fun c => c = '.') with
  | none =>
    show pre.data <+: (pre ++ t).data
    rw [String.data_append]
    exact List.prefix_append _ _
  | some i =>
    dsimp only
    split
    · show pre.data <+: (pre ++ t).data
      rw [String.data_append]
      exact List.prefix_append _ _
    · show pre.data <+:
        ((pre ++ t).data.take ((pre ++ t).length - 1 - i)).asString.data
      have hdata : ((pre ++ t).data.take
          ((pre ++ t).length - 1 - i)).asString.data =
          (pre ++ t).data.take ((pre ++ t).length - 1 - i) := rfl
      rw [hdata]
      have hfi := List.findIdx?_eq_some_iff_findIdx_eq.mp hidx
      have hlt2 : ((pre ++ t).data.reverse).findIdx (fun c => c = '.') <
          ((pre ++ t).data.reverse).length := by
        rw [hfi.2]
        exact hfi.1
      have hchar0 := @List.findIdx_getElem _ (fun c => c = '.')
        ((pre ++ t).data.reverse) hlt2
      simp only [hfi.2] at hchar0
      simp only [List.getElem_reverse] at hchar0
      have hib := hfi.1
      rw [List.length_reverse] at hib
      have hdot : ((pre ++ t).data[(pre ++ t).data.length - 1 - i]?) =
          some '.' := by
        rw [List.getElem?_eq_getElem (by omega)]
        exact congrArg some (of_decide_eq_true hchar0)
      have hd : pre.data.length ≤ (pre ++ t).length - 1 - i := by
        by_contra hcon
        push_neg at hcon
        have hlen : (pre ++ t).length = (pre ++ t).data.length := rfl
        rw [hlen] at hcon
        rw [String.data_append] at hdot hcon
        rw [List.getElem?_append_left hcon] at hdot
        exact hpre _ (List.getElem?_mem hdot) rfl
      have hlen : (pre ++ t).length = (pre ++ t).data.length := rfl
      rw [hlen, String.data_append, List.take_append_eq_append_take,
        List.take_of_length_le (by rw [← String.data_append, ← hlen]; exact hd)]
      exact List.prefix_append _ _

theorem get_consolidated_path_no_hash (st : EngSt) (base : FPath)
    (fh : Option String) (nm : String)
    (hinv : fh = none ∨ fh = some "" ∨ fh = some "Error" ∨
      fh = some "Skipped") :
    ∃ last : String,
      get_consolidated_path st base fh nm = base ++ ["00", "00", last] ∧
      ("no_hash" : String).data <+: last.data := by
  have hbf : get_consolidated_path st base fh nm =
      findFreeFrom (occupied st)
        (consCandidate (base ++ ["00", "00"])
          ("no_hash" ++ "_" ++ sanitize_filename nm)
          (splitext ("no_hash" ++ "_" ++ sanitize_filename nm)).1
          (splitext ("no_hash" ++ "_" ++ sanitize_filename nm)).2)
        (st.fs.live.length + st.cat.pathEnts.length + 1) 0 := by
    rw [get_consolidated_path.eq_def]
    rcases hinv with h | h | h | h <;> rw [h] <;> dsimp only
    · rw [if_pos (Or.inl rfl)]
    · rw [if_pos (Or.inr (Or.inl rfl))]
    · rw [if_pos (Or.inr (Or.inr rfl))]
  obtain ⟨j, hj⟩ := findFreeFrom_is_cand (occupied st)
    (consCandidate (base ++ ["00", "00"])
      ("no_hash" ++ "_" ++ sanitize_filename nm)
      (splitext ("no_hash" ++ "_" ++ sanitize_filename nm)).1
      (splitext ("no_hash" ++ "_" ++ sanitize_filename nm)).2)
    (st.fs.live.length + st.cat.pathEnts.length + 1) 0
  rw [hbf, hj, consCandidate]
  by_cases hjz : j = 0
  · rw [if_pos hjz]
    refine ⟨"no_hash" ++ "_" ++ sanitize_filename nm, ?_, ?_⟩
    · rw [List.append_assoc]
      rfl
    · rw [String.append_assoc, String.data_append]
      exact List.prefix_append _ _
  · rw [if_neg hjz]
    refine ⟨(splitext ("no_hash" ++ "_" ++ sanitize_filename nm)).1 ++ "_" ++
      Nat.repr j ++ (splitext ("no_hash" ++ "_" ++ sanitize_filename nm)).2,
      ?_, ?_⟩
    · rw [List.append_assoc]
      rfl
    · have hstem : ("no_hash" : String).data <+:
          ((splitext ("no_hash" ++ "_" ++ sanitize_filename nm)).1).data := by
        rw [String.append_assoc]
        exact splitext_stem_prefix "no_hash" ("_" ++ sanitize_filename nm)
          (by decide)
      refine List.IsPrefix.trans hstem ?_
      simp only [String.data_append, List.append_assoc]
      exact List.prefix_append _ _

/-- `consolidated_path_exists` holds after registering that path. -/
theorem consolidated_path_exists_update (cat : Catalog) (file_id : Nat)
    (p : FPath) :
    consolidated_path_exists (update_consolidated_path cat file_id p) p =
      true := by
  rw [update_consolidated_path]
  by_cases h : (cat.pathEnts.any (fun e =>
      e.fileId = file_id ∧ e.pathType = "consolidated" ∧ e.path = p)) = true
  · rw [if_pos h]
    rw [List.any_eq_true] at h
    obtain ⟨e, he, hep⟩ := h
    have hp := of_decide_eq_true hep
    rw [consolidated_path_exists, List.any_eq_true]
    exact ⟨e, he, decide_eq_true ⟨hp.2.1, hp.2.2⟩⟩
  · rw [if_neg h]
    rw [consolidated_path_exists, List.any_eq_true]
    refine ⟨_, List.mem_append_right _ (List.mem_singleton.mpr rfl), ?_⟩
    exact decide_eq_true ⟨rfl, rfl⟩

/-- C6: the consolidated-path algorithm returns a path that neither exists
on disk nor is registered as a consolidated path entry, so no consolidation
overwrites an existing file; once the first input's path is on disk or
registered, a second input can never receive the same path (the incrementing
suffix walks past it); and inputs without a usable hash fall back to shard
`00/00` with file-name prefix `no_hash`. -/
theorem consolidated_path_collision_free :
    (∀ (st : EngSt) (base : FPath) (fh : Option String) (nm : String),
      get_consolidated_path st base fh nm ∉ st.fs.live ∧
      consolidated_path_exists st.cat
        (get_consolidated_path st base fh nm) = false) ∧
    (∀ (st : EngSt) (base : FPath) (fh1 : Option String) (nm1 : String)
        (fh2 : Option String) (nm2 : String) (p1 : FPath),
      p1 = get_consolidated_path st base fh1 nm1 →
      get_consolidated_path
        { st with fs := ⟨addPath st.fs.live p1, st.fs.dirs⟩ }
        base fh2 nm2 ≠ p1) ∧
    (∀ (st : EngSt) (base : FPath) (fh1 : Option String) (nm1 : String)
        (file_id : Nat) (fh2 : Option String) (nm2 : String) (p1 : FPath),
      p1 = get_consolidated_path st base fh1 nm1 →
      get_consolidated_path
        { st with cat := update_consolidated_path st.cat file_id p1 }
        base fh2 nm2 ≠ p1) ∧
    (∀ (st : EngSt) (base : FPath) (fh : Option String) (nm : String),
      (fh = none ∨ fh = some "" ∨ fh = some "Error" ∨ fh = some "Skipped") →
      ∃ last : String,
        get_consolidated_path st base fh nm = base ++ ["00", "00", last] ∧
        ("no_hash" : String).data <+: last.data) := by
  have hkey : ∀ (st : EngSt) (base : FPath) (fh : Option String)
      (nm : String),
      get_consolidated_path st base fh nm ∉ st.fs.live ∧
      consolidated_path_exists st.cat
        (get_consolidated_path st base fh nm) = false := by
    intro st base fh nm
    have h := get_consolidated_path_not_occupied st base fh nm
    rw [occupied, Bool.or_eq_false_iff] at h
    exact ⟨of_decide_eq_false h.1, h.2⟩
  refine ⟨hkey, ?_, ?_, get_consolidated_path_no_hash⟩
  · intro st base fh1 nm1 fh2 nm2 p1 hp1 heq
    have h := (hkey { st with fs := ⟨addPath st.fs.live p1, st.fs.dirs⟩ }
      base fh2 nm2).1
    rw [heq] at h
    exact h (List.mem_cons_self _ _)
  · intro st base fh1 nm1 file_id fh2 nm2 p1 hp1 heq
    have h := (hkey
      { st with cat := update_consolidated_path st.cat file_id p1 }
      base fh2 nm2).2
    rw [heq] at h
    rw [consolidated_path_exists_update] at h
    exact absurd h (by decide)

/-- Zeroed in-memory counters. -/
def zeroStats : RunStats :=
  { filesConsolidated := 0, symlinksCreated := 0, filesDeduplicated := 0,
    errors := 0 }

/-- An empty engine state used by witnesses. -/
def emptySt : EngSt :=
  { cat := { files := [], pathEnts := [], groups := [], stats := [] },
    fs := { live := [], dirs := [] },
    stats := zeroStats,
    moves := [], links := [] }

/-- The engine state after the first witness input's path is on disk. -/
def afterFirstSt : EngSt :=
  let p1 := get_consolidated_path emptySt ["c"] (some "aabbcc") "x.mov"
  { emptySt with fs := ⟨addPath emptySt.fs.live p1, emptySt.fs.dirs⟩ }

theorem consolidated_path_collision_free_witness :
    (get_consolidated_path emptySt ["c"] (some "aabbcc") "x.mov" =
      get_consolidated_path emptySt ["c"] (some "aabbcc") "x.mov") ∧
    ((none : Option String) = none ∨ (none : Option String) = some "" ∨
      (none : Option String) = some "Error" ∨
      (none : Option String) = some "Skipped") ∧
    (get_consolidated_path afterFirstSt ["c"] (some "aabbcc") "x.mov" ≠
      get_consolidated_path emptySt ["c"] (some "aabbcc") "x.mov") ∧
    (∃ last : String,
      get_consolidated_path emptySt ["c"] none "x.mov" =
        ["c"] ++ ["00", "00", last] ∧
      ("no_hash" : String).data <+: last.data) :=
  ⟨rfl, Or.inl rfl,
    consolidated_path_collision_free.2.1 emptySt ["c"] (some "aabbcc")
      "x.mov" (some "aabbcc") "x.mov" _ rfl,
    consolidated_path_collision_free.2.2.2 emptySt ["c"] none "x.mov"
      (Or.inl rfl)⟩

/-- C7: a duplicate whose relative path to its master needs at least 20
`..` segments is skipped with a recorded error: the state is unchanged
except for the error count — no symlink is created, the original file is
not deleted, the member is not marked, and the run continues (the function
returns `false` rather than failing). -/
theorem symlink_deep_relpath_skipped (cfg : DedupCfg) (st : EngSt)
    (dup : FileRec) (master_path : FPath)
    (hdry : cfg.dryRun = false)
    (hmp : master_path ∈ st.fs.live)
    (horig : dup.originalPath ∈ st.fs.live)
    (hdeep : 20 ≤ countDotDot
      (relpathStr master_path dup.originalPath.dropLast)) :
    create_symlink_for_duplicate cfg st dup master_path =
      ({ st with stats := { st.stats with errors := st.stats.errors + 1 } },
        false) := by
  rw [create_symlink_for_duplicate, if_neg (not_not_intro hmp),
    if_neg (not_not_intro horig), hdry]
  rw [if_neg (by simp)]
  rw [if_pos hdeep]

/-- C9: a duplicate whose original file is already missing at
symlink-creation time (non-dry-run) is marked `deduplicated` without
creating a symlink and without recording an error: only its
`deduplication_status`/timestamp change. -/
theorem symlink_missing_original_marked (cfg : DedupCfg) (st : EngSt)
    (dup : FileRec) (master_path : FPath)
    (hdry : cfg.dryRun = false)
    (hmp : master_path ∈ st.fs.live)
    (horig : dup.originalPath ∉ st.fs.live) :
    create_symlink_for_duplicate cfg st dup master_path =
      ({ st with
          cat := markDeduplicatedCat st.cat dup.id "deduplicated" cfg.ts },
        false) := by
  rw [create_symlink_for_duplicate, if_neg (not_not_intro hmp),
    if_pos horig, hdry]
  rw [if_neg (by simp)]

def symCfg : DedupCfg := { dryRun := false, base := ["c"], ts := "t" }

def symMasterPath : FPath := ["c", "files", "m.mov"]

def symDupDeep : FileRec :=
  { sampleFileRec with id := 2, originalPath := List.replicate 21 "d" ++ ["f.mov"], isDuplicate := true, masterFileId := some 1, dedupStatus := "not_processed", dedupTimestamp := none }

def symStDeep : EngSt :=
  ⟨⟨[symDupDeep], [], [], []⟩, ⟨[symMasterPath, symDupDeep.originalPath], []⟩, zeroStats, [], []⟩

def symDeepExpected : EngSt × Bool :=
  ({ symStDeep with stats := { symStDeep.stats with errors := symStDeep.stats.errors + 1 } }, false)

theorem symlink_deep_relpath_skipped_witness :
    (symCfg.dryRun = false ∧ symMasterPath ∈ symStDeep.fs.live ∧
      symDupDeep.originalPath ∈ symStDeep.fs.live ∧
      20 ≤ countDotDot
        (relpathStr symMasterPath symDupDeep.originalPath.dropLast)) ∧
    create_symlink_for_duplicate symCfg symStDeep symDupDeep symMasterPath =
      symDeepExpected :=
  ⟨⟨rfl, by decide, by decide, by decide⟩,
    symlink_deep_relpath_skipped symCfg symStDeep symDupDeep symMasterPath
      rfl (by decide) (by decide) (by decide)⟩

def symDupGone : FileRec :=
  { sampleFileRec with id := 3, originalPath := ["a", "f.mov"], isDuplicate := true, masterFileId := some 1, dedupStatus := "not_processed", dedupTimestamp := none }

def symStGone : EngSt :=
  ⟨⟨[symDupGone], [], [], []⟩, ⟨[symMasterPath], []⟩, zeroStats, [], []⟩

def symGoneExpected : EngSt × Bool :=
  ({ symStGone with cat := markDeduplicatedCat symStGone.cat symDupGone.id "deduplicated" symCfg.ts }, false)

theorem symlink_missing_original_marked_witness :
    (symCfg.dryRun = false ∧ symMasterPath ∈ symStGone.fs.live ∧
      symDupGone.originalPath ∉ symStGone.fs.live) ∧
    create_symlink_for_duplicate symCfg symStGone symDupGone symMasterPath =
      symGoneExpected :=
  ⟨⟨rfl, by decide, by decide⟩,
    symlink_missing_original_marked symCfg symStGone symDupGone symMasterPath
      rfl (by decide) (by decide)⟩

/-! ## Dry-run frame

`_preflight_checks` runs before the `dry_run` flag is ever consulted: it
creates the consolidation directory (`mkdir(parents=True, exist_ok=True)`)
and writes then deletes a `.test_write` probe file.  So a dry run is not
entirely free of filesystem mutation; everything else (catalog, moves,
links, the rest of the filesystem) is untouched. -/

/-- On a state where the consolidation directory does not yet exist, a
dry run still mutates the filesystem: `_preflight_checks` creates the
directory before `dry_run` is consulted. -/
theorem dry_run_mutates_fs_counterexample :
    (runDedup { dryRun := true, base := ["c", "dgc", "files"], ts := "t" }
        ⟨[], [], [], []⟩ ⟨[], []⟩).fs ≠ (⟨[], []⟩ : FS) := by
  decide

/-- Engine states equal except possibly in the in-memory counters. -/
def sameButStats (a b : EngSt) : Prop :=
  a.cat = b.cat ∧ a.fs = b.fs ∧ a.moves = b.moves ∧ a.links = b.links

theorem sameButStats_rfl (a : EngSt) : sameButStats a a :=
  ⟨rfl, rfl, rfl, rfl⟩

theorem sameButStats_trans {a b c : EngSt} (h1 : sameButStats a b)
    (h2 : sameButStats b c) : sameButStats a c :=
  ⟨h1.1.trans h2.1, h1.2.1.trans h2.2.1, h1.2.2.1.trans h2.2.2.1,
    h1.2.2.2.trans h2.2.2.2⟩

theorem foldl_sameButStats {α : Type} (f : EngSt → α → EngSt)
    (h : ∀ s a, sameButStats (f s a) s) :
    ∀ (l : List α) (s : EngSt), sameButStats (l.foldl f s) s := by
  intro l
  induction l with
  | nil => intro s; exact sameButStats_rfl s
  | cons a t ih =>
    intro s
    exact sameButStats_trans (ih (f s a)) (h s a)

theorem consolidate_unique_file_dry (cfg : DedupCfg) (st : EngSt)
    (row : FileRec) (hdry : cfg.dryRun = true) :
    sameButStats (consolidate_unique_file cfg st row).1 st := by
  rw [consolidate_unique_file, hdry]
  split
  · exact ⟨rfl, rfl, rfl, rfl⟩
  · exact ⟨rfl, rfl, rfl, rfl⟩

theorem consolidate_master_move_dry (cfg : DedupCfg) (st : EngSt)
    (master : FileRec) (hdry : cfg.dryRun = true) :
    sameButStats (consolidate_master_move cfg st master).1 st := by
  rw [consolidate_master_move, hdry]
  split
  · exact ⟨rfl, rfl, rfl, rfl⟩
  · exact ⟨rfl, rfl, rfl, rfl⟩

theorem consolidate_master_file_dry (cfg : DedupCfg) (st : EngSt)
    (master : FileRec) (hdry : cfg.dryRun = true) :
    sameButStats (consolidate_master_file cfg st master).1 st := by
  rw [consolidate_master_file]
  cases hm : get_master_file_path st.cat master.id with
  | none => exact consolidate_master_move_dry cfg st master hdry
  | some p =>
    dsimp only
    split
    · exact ⟨rfl, rfl, rfl, rfl⟩
    · exact consolidate_master_move_dry cfg st master hdry

theorem create_symlink_for_duplicate_dry (cfg : DedupCfg) (st : EngSt)
    (dup : FileRec) (mp : FPath) (hdry : cfg.dryRun = true) :
    sameButStats (create_symlink_for_duplicate cfg st dup mp).1 st := by
  rw [create_symlink_for_duplicate, hdry]
  split
  · exact ⟨rfl, rfl, rfl, rfl⟩
  · split
    · exact ⟨rfl, rfl, rfl, rfl⟩
    · exact ⟨rfl, rfl, rfl, rfl⟩

theorem processGroup_dry (cfg : DedupCfg) (st : EngSt) (g : GroupRec)
    (hdry : cfg.dryRun = true) :
    sameButStats (processGroup cfg st g) st := by
  simp only [processGroup, hdry]
  split
  · exact sameButStats_rfl st
  · split
    · exact sameButStats_rfl st
    · split
      · exact sameButStats_rfl st
      · rename_i xo mf heqf
        split
        · next st1 heq =>
          have h1 := consolidate_master_file_dry cfg st mf hdry
          rw [heq] at h1
          exact h1
        · next st1 mp heq =>
          have h1 := consolidate_master_file_dry cfg st mf hdry
          rw [heq] at h1
          refine sameButStats_trans ?h2 h1
          exact foldl_sameButStats _
            (fun s dup => by
              split
              · exact create_symlink_for_duplicate_dry cfg s dup mp hdry
              · exact sameButStats_rfl s) _ _

theorem consolidate_files_dry (cfg : DedupCfg) (st : EngSt)
    (hdry : cfg.dryRun = true) :
    sameButStats (consolidate_files cfg st) (preflight_checks cfg st) := by
  simp only [consolidate_files, hdry]
  exact sameButStats_trans
    (foldl_sameButStats _ (fun s g => processGroup_dry cfg s g hdry) _ _)
    (foldl_sameButStats _
      (fun s row => consolidate_unique_file_dry cfg s row hdry) _ _)

/-- C5 (amended): a dry run writes nothing to the catalog, moves no file
and creates no symlink; the only filesystem mutations are those of
`_preflight_checks`, which runs before the `dry_run` flag is consulted —
the consolidation directory is created and the `.test_write` probe file is
written and deleted. -/
theorem dry_run_frame (cfg : DedupCfg) (cat : Catalog) (fs : FS)
    (hdry : cfg.dryRun = true) :
    (runDedup cfg cat fs).cat = cat ∧ (runDedup cfg cat fs).moves = [] ∧
    (runDedup cfg cat fs).links = [] ∧
    (runDedup cfg cat fs).fs.live =
      removePath fs.live (cfg.base ++ [".test_write"]) ∧
    (runDedup cfg cat fs).fs.dirs = addDir fs.dirs cfg.base := by
  obtain ⟨hc, hf, hm, hl⟩ :=
    consolidate_files_dry cfg ⟨cat, fs, zeroStats, [], []⟩ hdry
  exact ⟨hc.trans rfl, hm.trans rfl, hl.trans rfl,
    (congrArg FS.live hf).trans rfl, (congrArg FS.dirs hf).trans rfl⟩

def dryCfgW : DedupCfg := { dryRun := true, base := ["c"], ts := "t" }

def dryCatW : Catalog := ⟨[], [], [], []⟩

def dryFsW : FS := ⟨[["a", "f.mov"]], []⟩

/-! ## Group completion marking

The group loop of `consolidate_files` marks the group `deduplicated_at`
unconditionally after the member loop, as soon as a master consolidated
path was obtained — even when a member was skipped with an error and
remains `not_processed`. -/

def c4Cfg : DedupCfg := { dryRun := false, base := ["c"], ts := "t" }

def c4Master : FileRec :=
  { id := 1, originalPath := ["x", "m.mov"], fileName := "m.mov",
    fileSizeBytes := 5, fileHash := some "aabbcc", createdAt := none,
    year := "2020", month := "01", monthDay := "02", projectName := "pr",
    scanTimestamp := "t0", isDuplicate := false, masterFileId := none,
    dedupStatus := "deduplicated", dedupTimestamp := some "t0" }

def c4Dup : FileRec :=
  { c4Master with id := 2, originalPath := List.replicate 21 "d" ++ ["f.mov"], isDuplicate := true, masterFileId := some 1, dedupStatus := "not_processed", dedupTimestamp := none }

def c4P : FPath := ["c", "aa", "bb", "aabbcc_m.mov"]

def c4G : GroupRec := ⟨1, "aabbcc", 5, some 1, 1, 10, 5, none⟩

def c4Cat : Catalog :=
  ⟨[c4Master, c4Dup], [⟨1, "consolidated", c4P⟩], [c4G], []⟩

def c4Fs : FS := ⟨[c4P, c4Dup.originalPath], []⟩

/-- A full non-dry run on a catalog whose only duplicate group has a
member that gets skipped with an error (its symlink would need 21 `..`
segments): the member is still `not_processed` afterwards, yet the group
has been marked complete (`deduplicated_at` set). -/
theorem group_marked_with_unprocessed_member_counterexample :
    ∃ g ∈ (runDedup c4Cfg c4Cat c4Fs).cat.groups,
      g.deduplicatedAt = some "t" ∧
      ∃ f ∈ (runDedup c4Cfg c4Cat c4Fs).cat.files,
        f.fileHash = some g.groupHash ∧ f.dedupStatus = "not_processed" := by
  decide

theorem update_group_deduplicated_marks (cat : Catalog) (h ts : String)
    (g2 : GroupRec) (hg2 : g2 ∈ (update_group_deduplicated cat h ts).groups)
    (hh : g2.groupHash = h) : g2.deduplicatedAt = some ts := by
  rw [update_group_deduplicated] at hg2
  simp only [List.mem_map] at hg2
  obtain ⟨g0, hg0, hmap⟩ := hg2
  by_cases hgh : g0.groupHash = h
  · rw [if_pos hgh] at hmap
    subst hmap
    rfl
  · rw [if_neg hgh] at hmap
    subst hmap
    exact absurd hh hgh

/-- C4 (amended): the group loop marks a pending group complete as soon
as a master consolidated path is obtained — after the member loop but
regardless of the members' resulting statuses.  In particular (see
`group_marked_with_unprocessed_member_counterexample`) a group whose
member was skipped with an error is still marked complete. -/
theorem group_marked_after_master_path (cfg : DedupCfg) (st : EngSt)
    (g : GroupRec)
    (hdry : cfg.dryRun = false)
    (hpend : g.deduplicatedAt = none)
    (hne : (get_duplicate_group_files st.cat g.groupHash).isEmpty = false)
    (master : FileRec)
    (hmaster : (get_duplicate_group_files st.cat g.groupHash).find?
        (fun f => some f.id = g.masterFileId) = some master)
    (hpath : (consolidate_master_file cfg st master).2.isSome = true) :
    ∀ g2 ∈ (processGroup cfg st g).cat.groups, g2.groupHash = g.groupHash →
      g2.deduplicatedAt = some cfg.ts := by
  intro g2 hg2 hh
  simp only [processGroup, hpend, Option.isSome_none, Bool.false_eq_true,
    if_false, hne, hmaster] at hg2
  cases hcm : consolidate_master_file cfg st master with
  | mk st1 opt =>
    rw [hcm] at hg2 hpath
    cases opt with
    | none => simp at hpath
    | some mp =>
      simp only [hdry, Bool.false_eq_true, if_false] at hg2
      exact update_group_deduplicated_marks _ _ _ g2 hg2 hh

def c4St : EngSt := ⟨c4Cat, c4Fs, zeroStats, [], []⟩

theorem group_marked_after_master_path_witness :
    (c4Cfg.dryRun = false ∧ c4G.deduplicatedAt = none ∧
      (get_duplicate_group_files c4St.cat c4G.groupHash).isEmpty = false ∧
      (get_duplicate_group_files c4St.cat c4G.groupHash).find?
        (fun f => some f.id = c4G.masterFileId) = some c4Master ∧
      (consolidate_master_file c4Cfg c4St c4Master).2.isSome = true) ∧
    (∀ g2 ∈ (processGroup c4Cfg c4St c4G).cat.groups,
      g2.groupHash = c4G.groupHash → g2.deduplicatedAt = some c4Cfg.ts) :=
  ⟨⟨rfl, rfl, by decide, by decide, by decide⟩,
    group_marked_after_master_path c4Cfg c4St c4G rfl rfl (by decide)
      c4Master (by decide) (by decide)⟩

theorem dry_run_frame_witness :
    dryCfgW.dryRun = true ∧
    ((runDedup dryCfgW dryCatW dryFsW).cat = dryCatW ∧
      (runDedup dryCfgW dryCatW dryFsW).moves = [] ∧
      (runDedup dryCfgW dryCatW dryFsW).links = [] ∧
      (runDedup dryCfgW dryCatW dryFsW).fs.live =
        removePath dryFsW.live (dryCfgW.base ++ [".test_write"]) ∧
      (runDedup dryCfgW dryCatW dryFsW).fs.dirs =
        addDir dryFsW.dirs dryCfgW.base) :=
  ⟨rfl, dry_run_frame dryCfgW dryCatW dryFsW rfl⟩

/-! ## Second-run analysis (idempotence and the statistics overwrite)

`update_deduplication_statistics` overwrites the three persisted counters
with `str(value)` of the run's own in-memory counts; they are not
additive.  A quiescent second run therefore rewrites them to `"0"`.  The
moves/links part of idempotence does hold under sanity conditions on the
catalog (distinct file ids, distinct group hashes, no original path under
the consolidation base), proved below by a two-pass invariant argument. -/

def c3Cfg : DedupCfg := { dryRun := false, base := ["c"], ts := "t" }

def c3F : FileRec :=
  { id := 1, originalPath := ["x", "f.mov"], fileName := "f.mov",
    fileSizeBytes := 5, fileHash := some "aabbcc", createdAt := none,
    year := "2020", month := "01", monthDay := "02", projectName := "pr",
    scanTimestamp := "t0", isDuplicate := false, masterFileId := none,
    dedupStatus := "not_processed", dedupTimestamp := none }

def c3Cat : Catalog := ⟨[c3F], [], [], []⟩

def c3Fs : FS := ⟨[["x", "f.mov"]], []⟩

/-- A second run with no intervening filesystem change does not leave the
statistics values unchanged: the first run consolidates one file and
persists `files_consolidated = "1"`; the quiescent second run overwrites
it with `"0"` (`stat_value = excluded.stat_value` on conflict — the
counters are replaced by each run's own counts, not accumulated). -/
theorem second_run_changes_statistics_counterexample :
    (runDedup c3Cfg (runDedup c3Cfg c3Cat c3Fs).cat
        (runDedup c3Cfg c3Cat c3Fs).fs).cat.stats ≠
      (runDedup c3Cfg c3Cat c3Fs).cat.stats := by
  decide

/-- The free-path fact of `_get_consolidated_path`, split out of
`occupied`. -/
theorem gcp_free (st : EngSt) (base : FPath) (fh : Option String)
    (nm : String) :
    get_consolidated_path st base fh nm ∉ st.fs.live ∧
    consolidated_path_exists st.cat
      (get_consolidated_path st base fh nm) = false := by
  have h := get_consolidated_path_not_occupied st base fh nm
  rw [occupied, Bool.or_eq_false_iff] at h
  exact ⟨of_decide_eq_false h.1, h.2⟩

/-- Every consolidated path is `base` plus exactly three components
(shard, shard, filename). -/
theorem gcp_shape (st : EngSt) (base : FPath) (fh : Option String)
    (nm : String) :
    ∃ x y z : String, get_consolidated_path st base fh nm =
      base ++ [x, y, z] := by
  have key : ∀ (d1 d2 : String) (bf : String),
      ∃ x y z : String, findFreeFrom (occupied st)
        (consCandidate (base ++ [d1, d2]) bf (splitext bf).1
          (splitext bf).2)
        (st.fs.live.length + st.cat.pathEnts.length + 1) 0 =
        base ++ [x, y, z] := by
    intro d1 d2 bf
    obtain ⟨j, hj⟩ := findFreeFrom_is_cand (occupied st)
      (consCandidate (base ++ [d1, d2]) bf (splitext bf).1 (splitext bf).2)
      (st.fs.live.length + st.cat.pathEnts.length + 1) 0
    rw [hj, consCandidate]
    by_cases hjz : j = 0
    · rw [if_pos hjz]
      exact ⟨d1, d2, bf, by rw [List.append_assoc]; rfl⟩
    · rw [if_neg hjz]
      exact ⟨d1, d2, _, by rw [List.append_assoc]; rfl⟩
  rw [get_consolidated_path.eq_def]
  cases fh with
  | none => exact key _ _ _
  | some h =>
    by_cases hh : h = "" ∨ h = "Error" ∨ h = "Skipped"
    · dsimp only
      rw [if_pos hh]
      exact key _ _ _
    · dsimp only
      rw [if_neg hh]
      exact key _ _ _

/-- The per-file frame preserved by every engine operation: identity,
original path, hash, duplicate flag and master reference never change;
the status either stays or becomes `deduplicated`. -/
def sameCore (f g : FileRec) : Prop :=
  g.id = f.id ∧ g.originalPath = f.originalPath ∧ g.fileHash = f.fileHash ∧
  g.isDuplicate = f.isDuplicate ∧ g.masterFileId = f.masterFileId ∧
  (g.dedupStatus = f.dedupStatus ∨ g.dedupStatus = "deduplicated")

/-- The per-group frame: only `deduplicated_at` can change, and only to
`some`. -/
def sameGroupCore (g g' : GroupRec) : Prop :=
  g'.groupHash = g.groupHash ∧ g'.masterFileId = g.masterFileId ∧
  g'.duplicateCount = g.duplicateCount ∧
  (g'.deduplicatedAt = g.deduplicatedAt ∨ g'.deduplicatedAt.isSome = true)

/-- The state frame of a (non-dry) engine run segment: files and groups
evolve pointwise inside their cores, path entries are append-only, every
new live path is an unregistered consolidated path `base ++ [x, y, z]`,
and directories only get added. -/
def EngFrame (cfg : DedupCfg) (s s' : EngSt) : Prop :=
  List.Forall₂ sameCore s.cat.files s'.cat.files ∧
  s.cat.pathEnts <+: s'.cat.pathEnts ∧
  List.Forall₂ sameGroupCore s.cat.groups s'.cat.groups ∧
  (∀ p : FPath, p ∈ s'.fs.live → p ∈ s.fs.live ∨
    (consolidated_path_exists s.cat p = false ∧
      ∃ x y z : String, p = cfg.base ++ [x, y, z])) ∧
  (∀ p : FPath, p ∈ s.fs.dirs → p ∈ s'.fs.dirs)

theorem sameCore_rfl (f : FileRec) : sameCore f f :=
  ⟨rfl, rfl, rfl, rfl, rfl, Or.inl rfl⟩

theorem sameCore_trans {f g h : FileRec} (h1 : sameCore f g)
    (h2 : sameCore g h) : sameCore f h := by
  obtain ⟨a1, a2, a3, a4, a5, a6⟩ := h1
  obtain ⟨b1, b2, b3, b4, b5, b6⟩ := h2
  refine ⟨b1.trans a1, b2.trans a2, b3.trans a3, b4.trans a4,
    b5.trans a5, ?_⟩
  cases b6 with
  | inl hb => cases a6 with
    | inl ha => exact Or.inl (hb.trans ha)
    | inr ha => exact Or.inr (hb.trans ha)
  | inr hb => exact Or.inr hb

theorem sameGroupCore_rfl (g : GroupRec) : sameGroupCore g g :=
  ⟨rfl, rfl, rfl, Or.inl rfl⟩

theorem sameGroupCore_trans {f g h : GroupRec} (h1 : sameGroupCore f g)
    (h2 : sameGroupCore g h) : sameGroupCore f h := by
  obtain ⟨a1, a2, a3, a4⟩ := h1
  obtain ⟨b1, b2, b3, b4⟩ := h2
  refine ⟨b1.trans a1, b2.trans a2, b3.trans a3, ?_⟩
  cases b4 with
  | inl hb => cases a4 with
    | inl ha => exact Or.inl (hb.trans ha)
    | inr ha => exact Or.inr (hb ▸ ha)
  | inr hb => exact Or.inr hb

theorem forall₂_trans {α : Type} {R : α → α → Prop}
    (hR : ∀ a b c, R a b → R b c → R a c) :
    ∀ {l m n : List α}, List.Forall₂ R l m → List.Forall₂ R m n →
      List.Forall₂ R l n := by
  intro l m n h1 h2
  induction h1 generalizing n with
  | nil => cases h2; exact List.Forall₂.nil
  | cons hab hres ih =>
    cases h2 with
    | cons hbc hrest =>
      exact List.Forall₂.cons (hR _ _ _ hab hbc) (ih hrest)

theorem forall₂_rfl {α : Type} {R : α → α → Prop} (hR : ∀ a, R a a) :
    ∀ l : List α, List.Forall₂ R l l := by
  intro l
  induction l with
  | nil => exact List.Forall₂.nil
  | cons a t ih => exact List.Forall₂.cons (hR a) ih

/-- `consolidated_path_exists` is monotone under appending entries. -/
theorem consolidated_path_exists_mono {pe pe' : List PathEnt}
    (hpre : pe <+: pe') (c c' : Catalog) (hc : c.pathEnts = pe)
    (hc' : c'.pathEnts = pe') (p : FPath)
    (h : consolidated_path_exists c p = true) :
    consolidated_path_exists c' p = true := by
  rw [consolidated_path_exists, List.any_eq_true] at h ⊢
  obtain ⟨e, he, hep⟩ := h
  rw [hc] at he
  exact ⟨e, by rw [hc']; exact hpre.subset he, hep⟩

theorem engFrame_rfl (cfg : DedupCfg) (s : EngSt) : EngFrame cfg s s :=
  ⟨forall₂_rfl sameCore_rfl _, List.prefix_refl _,
    forall₂_rfl sameGroupCore_rfl _, fun p hp => Or.inl hp, fun p hp => hp⟩

theorem engFrame_trans {cfg : DedupCfg} {s s' s'' : EngSt}
    (h1 : EngFrame cfg s s') (h2 : EngFrame cfg s' s'') :
    EngFrame cfg s s'' := by
  obtain ⟨a1, a2, a3, a4, a5⟩ := h1
  obtain ⟨b1, b2, b3, b4, b5⟩ := h2
  refine ⟨@forall₂_trans FileRec sameCore
      (fun a b c hab hbc => sameCore_trans hab hbc) _ _ _ a1 b1,
    a2.trans b2,
    @forall₂_trans GroupRec sameGroupCore
      (fun a b c hab hbc => sameGroupCore_trans hab hbc) _ _ _ a3 b3,
    ?_,
    fun p hp => b5 p (a5 p hp)⟩
  intro p hp
  cases b4 p hp with
  | inl h => exact a4 p h
  | inr h =>
    refine Or.inr ⟨?_, h.2⟩
    by_cases hex : consolidated_path_exists s.cat p = true
    · exact absurd (consolidated_path_exists_mono a2 s.cat s'.cat rfl rfl
        p hex) (by rw [h.1]; exact Bool.false_ne_true)
    · exact Bool.eq_false_iff.mpr hex

theorem forall₂_mem_right {α : Type} {R : α → α → Prop} :
    ∀ {l l' : List α}, List.Forall₂ R l l' → ∀ b ∈ l', ∃ a ∈ l, R a b := by
  intro l l' h
  induction h with
  | nil => intro b hb; exact absurd hb (List.not_mem_nil b)
  | cons hab hrest ih =>
    intro b hb
    cases List.mem_cons.mp hb with
    | inl he => exact ⟨_, List.mem_cons_self _ _, he ▸ hab⟩
    | inr ht =>
      obtain ⟨a, ha, har⟩ := ih b ht
      exact ⟨a, List.mem_cons_of_mem _ ha, har⟩

theorem forall₂_mem_left {α : Type} {R : α → α → Prop} :
    ∀ {l l' : List α}, List.Forall₂ R l l' → ∀ a ∈ l, ∃ b ∈ l', R a b := by
  intro l l' h
  induction h with
  | nil => intro a ha; exact absurd ha (List.not_mem_nil a)
  | cons hab hrest ih =>
    intro a ha
    cases List.mem_cons.mp ha with
    | inl he => exact ⟨_, List.mem_cons_self _ _, he ▸ hab⟩
    | inr ht =>
      obtain ⟨b, hb, hbr⟩ := ih a ht
      exact ⟨b, List.mem_cons_of_mem _ hb, hbr⟩

theorem forall₂_filter {α : Type} {R : α → α → Prop} (p : α → Bool)
    (hp : ∀ a b, R a b → p a = p b) :
    ∀ {l l' : List α}, List.Forall₂ R l l' →
      List.Forall₂ R (l.filter p) (l'.filter p) := by
  intro l l' h
  induction h with
  | nil => exact List.Forall₂.nil
  | cons hab hrest ih =>
    rename_i a b as bs
    by_cases hpa : p a = true
    · rw [List.filter_cons_of_pos hpa,
        List.filter_cons_of_pos (by rw [← hp a b hab]; exact hpa)]
      exact List.Forall₂.cons hab ih
    · rw [List.filter_cons_of_neg hpa,
        List.filter_cons_of_neg (by rw [← hp a b hab]; exact hpa)]
      exact ih

theorem forall₂_find?_none {α : Type} {R : α → α → Prop} (q : α → Bool)
    (hq : ∀ a b, R a b → q a = q b) :
    ∀ {l l' : List α}, List.Forall₂ R l l' → l.find? q = none →
      l'.find? q = none := by
  intro l l' h
  induction h with
  | nil => intro _; rfl
  | cons hab hrest ih =>
    rename_i a b as bs
    intro hn
    rw [List.find?_cons] at hn ⊢
    by_cases hqa : q a = true
    · rw [hqa] at hn; exact absurd hn (by simp)
    · rw [Bool.eq_false_iff.mpr hqa] at hn
      rw [← hq a b hab, Bool.eq_false_iff.mpr hqa]
      exact ih hn

theorem forall₂_find?_some {α : Type} {R : α → α → Prop} (q : α → Bool)
    (hq : ∀ a b, R a b → q a = q b) :
    ∀ {l l' : List α}, List.Forall₂ R l l' → ∀ a, l.find? q = some a →
      ∃ b, l'.find? q = some b ∧ R a b := by
  intro l l' h
  induction h with
  | nil => intro a ha; exact absurd ha (by simp)
  | cons hab hrest ih =>
    rename_i x y xs ys
    intro a ha
    rw [List.find?_cons] at ha ⊢
    by_cases hqx : q x = true
    · rw [hqx] at ha
      rw [← hq x y hab, hqx]
      exact ⟨y, rfl, (Option.some_inj.mp ha) ▸ hab⟩
    · rw [Bool.eq_false_iff.mpr hqx] at ha
      rw [← hq x y hab, Bool.eq_false_iff.mpr hqx]
      exact ih a ha

theorem forall₂_map_eq {α β : Type} {R : α → α → Prop} (f : α → β)
    (hf : ∀ a b, R a b → f b = f a) :
    ∀ {l l' : List α}, List.Forall₂ R l l' → l'.map f = l.map f := by
  intro l l' h
  induction h with
  | nil => rfl
  | cons hab hrest ih =>
    rw [List.map_cons, List.map_cons, hf _ _ hab, ih]

theorem forall₂_map_self {α : Type} {R : α → α → Prop} (f : α → α)
    (h : ∀ a, R a (f a)) : ∀ l : List α, List.Forall₂ R l (l.map f) := by
  intro l
  induction l with
  | nil => exact List.Forall₂.nil
  | cons a t ih => exact List.Forall₂.cons (h a) ih

theorem filter_head?_append {α : Type} (q : α → Bool) (l t : List α) (e : α)
    (h : (l.filter q).head? = some e) :
    ((l ++ t).filter q).head? = some e := by
  rw [List.filter_append]
  cases hf : l.filter q with
  | nil => rw [hf] at h; exact absurd h (by simp)
  | cons x xs =>
    rw [hf] at h
    rw [List.cons_append, List.head?_cons]
    rw [List.head?_cons] at h
    exact h

/-- `get_master_file_path` keeps returning the same (first) entry when
entries are only appended. -/
theorem gmfp_mono (c c' : Catalog) (hpre : c.pathEnts <+: c'.pathEnts)
    (fid : Nat) (p : FPath) (h : get_master_file_path c fid = some p) :
    get_master_file_path c' fid = some p := by
  rw [get_master_file_path] at h ⊢
  obtain ⟨e, he, hep⟩ := Option.map_eq_some'.mp h
  obtain ⟨tl, htl⟩ := hpre
  rw [← htl, filter_head?_append _ _ _ _ he]
  rw [Option.map_some', hep]

theorem sameCore_status_back {f g : FileRec} (h : sameCore f g)
    (hnp : g.dedupStatus = "not_processed") :
    f.dedupStatus = "not_processed" := by
  cases h.2.2.2.2.2 with
  | inl he => rw [← he]; exact hnp
  | inr hd =>
    have hc : ("not_processed" : String) = "deduplicated" := by
      rw [← hnp]; exact hd
    exact absurd hc (by decide)

theorem sameCore_dedup_fwd {f g : FileRec} (h : sameCore f g)
    (hd : f.dedupStatus = "deduplicated") :
    g.dedupStatus = "deduplicated" := by
  cases h.2.2.2.2.2 with
  | inl he => rw [he]; exact hd
  | inr h2 => exact h2

/-- Backward transport of membership in the unique-file selection. -/
theorem unique_mem_back (c c' : Catalog)
    (hF : List.Forall₂ sameCore c.files c'.files) :
    ∀ f' ∈ get_unique_files c', ∃ f ∈ get_unique_files c, sameCore f f' := by
  intro f' hf'
  rw [get_unique_files, List.mem_filter] at hf'
  obtain ⟨hmem, hpred⟩ := hf'
  obtain ⟨hnp, hdup, hmid⟩ := of_decide_eq_true hpred
  obtain ⟨f, hf, hcore⟩ := forall₂_mem_right hF f' hmem
  refine ⟨f, ?_, hcore⟩
  rw [get_unique_files, List.mem_filter]
  refine ⟨hf, decide_eq_true ?_⟩
  exact ⟨sameCore_status_back hcore hnp, hcore.2.2.2.1 ▸ hdup,
    hcore.2.2.2.2.1 ▸ hmid⟩

/-- `get_duplicate_group_files` transports along the file frame. -/
theorem gdf_forall₂ (c c' : Catalog) (h : String)
    (hF : List.Forall₂ sameCore c.files c'.files) :
    List.Forall₂ sameCore (get_duplicate_group_files c h)
      (get_duplicate_group_files c' h) := by
  rw [get_duplicate_group_files, get_duplicate_group_files]
  refine forall₂_filter _ ?_ hF
  intro a b hab
  exact decide_eq_decide.mpr (by rw [hab.2.2.1])

theorem forall₂_id_map {l l' : List FileRec}
    (h : List.Forall₂ sameCore l l') :
    l'.map FileRec.id = l.map FileRec.id :=
  forall₂_map_eq _ (fun a b hab => hab.1) h

theorem forall₂_grouphash_map {l l' : List GroupRec}
    (h : List.Forall₂ sameGroupCore l l') :
    l'.map GroupRec.groupHash = l.map GroupRec.groupHash :=
  forall₂_map_eq _ (fun a b hab => hab.1) h

theorem mark_forall₂ (files : List FileRec) (fid : Nat) (ts : String) :
    List.Forall₂ sameCore files
      (mark_deduplicated files fid "deduplicated" ts) := by
  rw [mark_deduplicated]
  refine forall₂_map_self _ ?_ files
  intro a
  by_cases hid : a.id = fid
  · rw [if_pos hid]
    exact ⟨rfl, rfl, rfl, rfl, rfl, Or.inr rfl⟩
  · rw [if_neg hid]
    exact sameCore_rfl a

theorem ugd_forall₂ (groups : List GroupRec) (h ts : String) :
    List.Forall₂ sameGroupCore groups (groups.map (fun g =>
      if g.groupHash = h then { g with deduplicatedAt := some ts }
      else g)) := by
  refine forall₂_map_self _ ?_ groups
  intro g
  by_cases hg : g.groupHash = h
  · rw [if_pos hg]
    exact ⟨rfl, rfl, rfl, Or.inr rfl⟩
  · rw [if_neg hg]
    exact sameGroupCore_rfl g

theorem removePath_sub {l : List FPath} {p q : FPath}
    (h : q ∈ removePath l p) : q ∈ l :=
  (List.mem_filter.mp h).1

theorem addPath_mem {l : List FPath} {p q : FPath} (h : q ∈ addPath l p) :
    q = p ∨ q ∈ l := by
  rw [addPath] at h
  cases List.mem_cons.mp h with
  | inl he => exact Or.inl he
  | inr ht => exact Or.inr (removePath_sub ht)

theorem addDir_mem_of {ds : List FPath} {p q : FPath} (h : q ∈ ds) :
    q ∈ addDir ds p := by
  rw [addDir]
  split
  · exact h
  · exact List.mem_cons_of_mem _ h

theorem addDir_self (ds : List FPath) (p : FPath) : p ∈ addDir ds p := by
  rw [addDir]
  split
  · assumption
  · exact List.mem_cons_self _ _

theorem ucp_files (c : Catalog) (fid : Nat) (p : FPath) :
    (update_consolidated_path c fid p).files = c.files := by
  rw [update_consolidated_path]
  split <;> rfl

theorem ucp_groups (c : Catalog) (fid : Nat) (p : FPath) :
    (update_consolidated_path c fid p).groups = c.groups := by
  rw [update_consolidated_path]
  split <;> rfl

theorem ucp_prefix (c : Catalog) (fid : Nat) (p : FPath) :
    c.pathEnts <+: (update_consolidated_path c fid p).pathEnts := by
  rw [update_consolidated_path]
  split
  · exact List.prefix_refl _
  · exact ⟨_, rfl⟩

theorem ucp_entries (c : Catalog) (fid : Nat) (p : FPath) :
    ∀ e ∈ (update_consolidated_path c fid p).pathEnts,
      e ∈ c.pathEnts ∨ (e.pathType = "consolidated" ∧ e.fileId = fid) := by
  rw [update_consolidated_path]
  split
  · intro e he; exact Or.inl he
  · intro e he
    cases List.mem_append.mp he with
    | inl h => exact Or.inl h
    | inr h =>
      rw [List.mem_singleton.mp h]
      exact Or.inr ⟨rfl, rfl⟩

theorem usp_files (c : Catalog) (fid : Nat) (p : FPath) :
    (update_symlink_path c fid p).files = c.files := by
  rw [update_symlink_path]
  split <;> rfl

theorem usp_groups (c : Catalog) (fid : Nat) (p : FPath) :
    (update_symlink_path c fid p).groups = c.groups := by
  rw [update_symlink_path]
  split <;> rfl

theorem usp_prefix (c : Catalog) (fid : Nat) (p : FPath) :
    c.pathEnts <+: (update_symlink_path c fid p).pathEnts := by
  rw [update_symlink_path]
  split
  · exact List.prefix_refl _
  · exact ⟨_, rfl⟩

theorem usp_entries (c : Catalog) (fid : Nat) (p : FPath) :
    ∀ e ∈ (update_symlink_path c fid p).pathEnts,
      e ∈ c.pathEnts ∨ e.pathType = "symlink" := by
  rw [update_symlink_path]
  split
  · intro e he; exact Or.inl he
  · intro e he
    cases List.mem_append.mp he with
    | inl h => exact Or.inl h
    | inr h =>
      rw [List.mem_singleton.mp h]
      exact Or.inr rfl

theorem foldl_engFrame {α : Type} (cfg : DedupCfg) (f : EngSt → α → EngSt)
    (h : ∀ s a, EngFrame cfg s (f s a)) :
    ∀ (l : List α) (s : EngSt), EngFrame cfg s (l.foldl f s) := by
  intro l
  induction l with
  | nil => intro s; exact engFrame_rfl cfg s
  | cons a t ih =>
    intro s
    exact engFrame_trans (h s a) (ih (f s a))

theorem foldl_entries {α : Type} (f : EngSt → α → EngSt) (P : PathEnt → Prop)
    (h : ∀ s a, ∀ e ∈ (f s a).cat.pathEnts, e ∈ s.cat.pathEnts ∨ P e) :
    ∀ (l : List α) (s : EngSt), ∀ e ∈ (l.foldl f s).cat.pathEnts,
      e ∈ s.cat.pathEnts ∨ P e := by
  intro l
  induction l with
  | nil => intro s e he; exact Or.inl he
  | cons a t ih =>
    intro s e he
    cases ih (f s a) e he with
    | inl h1 =>
      cases h s a e h1 with
      | inl h2 => exact Or.inl h2
      | inr h2 => exact Or.inr h2
    | inr h1 => exact Or.inr h1

/-- `_consolidate_unique_file` stays inside the engine frame. -/
theorem consolidate_unique_file_frame (cfg : DedupCfg) (s : EngSt)
    (row : FileRec) : EngFrame cfg s (consolidate_unique_file cfg s row).1 := by
  rw [consolidate_unique_file]
  split
  · exact engFrame_rfl cfg s
  · split
    · exact engFrame_rfl cfg s
    · refine ⟨?_, ?_, ?_, ?_, ?_⟩
      · show List.Forall₂ sameCore s.cat.files
          (mark_deduplicated (update_consolidated_path s.cat row.id
            (get_consolidated_path s cfg.base row.fileHash row.fileName)).files
            row.id "deduplicated" cfg.ts)
        rw [ucp_files]
        exact mark_forall₂ _ _ _
      · show s.cat.pathEnts <+: (update_consolidated_path s.cat row.id
          (get_consolidated_path s cfg.base row.fileHash
            row.fileName)).pathEnts
        exact ucp_prefix _ _ _
      · show List.Forall₂ sameGroupCore s.cat.groups
          (update_consolidated_path s.cat row.id
            (get_consolidated_path s cfg.base row.fileHash
              row.fileName)).groups
        rw [ucp_groups]
        exact forall₂_rfl sameGroupCore_rfl _
      · intro p hp
        cases addPath_mem hp with
        | inl he =>
          refine Or.inr ⟨?_, ?_⟩
          · rw [he]
            exact (gcp_free s cfg.base row.fileHash row.fileName).2
          · rw [he]
            exact gcp_shape s cfg.base row.fileHash row.fileName
        | inr ht => exact Or.inl (removePath_sub ht)
      · intro p hp
        exact addDir_mem_of hp

/-- `_consolidate_master_file`'s move branch stays inside the frame. -/
theorem consolidate_master_move_frame (cfg : DedupCfg) (s : EngSt)
    (m : FileRec) : EngFrame cfg s (consolidate_master_move cfg s m).1 := by
  rw [consolidate_master_move]
  split
  · exact engFrame_rfl cfg s
  · split
    · exact engFrame_rfl cfg s
    · refine ⟨?_, ?_, ?_, ?_, ?_⟩
      · show List.Forall₂ sameCore s.cat.files
          (mark_deduplicated (update_consolidated_path s.cat m.id
            (get_consolidated_path s cfg.base m.fileHash m.fileName)).files
            m.id "deduplicated" cfg.ts)
        rw [ucp_files]
        exact mark_forall₂ _ _ _
      · show s.cat.pathEnts <+: (update_consolidated_path s.cat m.id
          (get_consolidated_path s cfg.base m.fileHash m.fileName)).pathEnts
        exact ucp_prefix _ _ _
      · show List.Forall₂ sameGroupCore s.cat.groups
          (update_consolidated_path s.cat m.id
            (get_consolidated_path s cfg.base m.fileHash m.fileName)).groups
        rw [ucp_groups]
        exact forall₂_rfl sameGroupCore_rfl _
      · intro p hp
        cases addPath_mem hp with
        | inl he =>
          refine Or.inr ⟨?_, ?_⟩
          · rw [he]
            exact (gcp_free s cfg.base m.fileHash m.fileName).2
          · rw [he]
            exact gcp_shape s cfg.base m.fileHash m.fileName
        | inr ht => exact Or.inl (removePath_sub ht)
      · intro p hp
        exact addDir_mem_of hp

theorem consolidate_master_file_frame (cfg : DedupCfg) (s : EngSt)
    (m : FileRec) : EngFrame cfg s (consolidate_master_file cfg s m).1 := by
  rw [consolidate_master_file]
  cases hm : get_master_file_path s.cat m.id with
  | none => exact consolidate_master_move_frame cfg s m
  | some p =>
    dsimp only
    split
    · exact engFrame_rfl cfg s
    · exact consolidate_master_move_frame cfg s m

theorem create_symlink_for_duplicate_frame (cfg : DedupCfg) (s : EngSt)
    (dup : FileRec) (mp : FPath) :
    EngFrame cfg s (create_symlink_for_duplicate cfg s dup mp).1 := by
  rw [create_symlink_for_duplicate]
  split
  · exact engFrame_rfl cfg s
  · split
    · split
      · exact engFrame_rfl cfg s
      · exact ⟨mark_forall₂ _ _ _, List.prefix_refl _,
          forall₂_rfl sameGroupCore_rfl _, fun p hp => Or.inl hp,
          fun p hp => hp⟩
    · split
      · exact engFrame_rfl cfg s
      · dsimp only
        split
        · exact engFrame_rfl cfg s
        · rename_i hmp horig hdry hdeep
          refine ⟨?_, ?_, ?_, ?_, ?_⟩
          · show List.Forall₂ sameCore s.cat.files
              (mark_deduplicated (update_symlink_path s.cat dup.id
                dup.originalPath).files dup.id "deduplicated" cfg.ts)
            rw [usp_files]
            exact mark_forall₂ _ _ _
          · show s.cat.pathEnts <+:
              (update_symlink_path s.cat dup.id dup.originalPath).pathEnts
            exact usp_prefix _ _ _
          · show List.Forall₂ sameGroupCore s.cat.groups
              (update_symlink_path s.cat dup.id dup.originalPath).groups
            rw [usp_groups]
            exact forall₂_rfl sameGroupCore_rfl _
          · intro p hp
            cases addPath_mem hp with
            | inl he =>
              refine Or.inl ?_
              rw [he]
              exact not_not.mp horig
            | inr ht => exact Or.inl (removePath_sub ht)
          · intro p hp
            exact hp

theorem csl_entries (cfg : DedupCfg) (s : EngSt) (dup : FileRec)
    (mp : FPath) :
    ∀ e ∈ ((create_symlink_for_duplicate cfg s dup mp).1).cat.pathEnts,
      e ∈ s.cat.pathEnts ∨ e.pathType = "symlink" := by
  rw [create_symlink_for_duplicate]
  split
  · intro e he; exact Or.inl he
  · split
    · split
      · intro e he; exact Or.inl he
      · intro e he; exact Or.inl he
    · split
      · intro e he; exact Or.inl he
      · dsimp only
        split
        · intro e he; exact Or.inl he
        · intro e he
          exact usp_entries _ _ _ e he

theorem cmm_entries (cfg : DedupCfg) (s : EngSt) (m : FileRec) :
    ∀ e ∈ ((consolidate_master_move cfg s m).1).cat.pathEnts,
      e ∈ s.cat.pathEnts ∨ (e.pathType = "consolidated" ∧ e.fileId = m.id) := by
  rw [consolidate_master_move]
  split
  · intro e he; exact Or.inl he
  · split
    · intro e he; exact Or.inl he
    · intro e he
      exact ucp_entries _ _ _ e he

theorem cmf_entries (cfg : DedupCfg) (s : EngSt) (m : FileRec) :
    ∀ e ∈ ((consolidate_master_file cfg s m).1).cat.pathEnts,
      e ∈ s.cat.pathEnts ∨ (e.pathType = "consolidated" ∧ e.fileId = m.id) := by
  rw [consolidate_master_file]
  cases hm : get_master_file_path s.cat m.id with
  | none => exact cmm_entries cfg s m
  | some p =>
    dsimp only
    split
    · intro e he; exact Or.inl he
    · exact cmm_entries cfg s m

/-- When the master cannot be consolidated (`None` returned), its original
is missing, any recorded consolidated path is dead, and only the error
counter changed. -/
theorem cmm_none_spec (cfg : DedupCfg) (s s' : EngSt) (m : FileRec)
    (h : consolidate_master_move cfg s m = (s', none)) :
    m.originalPath ∉ s.fs.live ∧ s'.cat = s.cat ∧ s'.fs = s.fs ∧
    s'.moves = s.moves ∧ s'.links = s.links ∧
    s'.stats.filesConsolidated = s.stats.filesConsolidated ∧
    s'.stats.symlinksCreated = s.stats.symlinksCreated ∧
    s'.stats.filesDeduplicated = s.stats.filesDeduplicated := by
  rw [consolidate_master_move] at h
  split at h
  · next horig =>
    have hs : s' = { s with stats :=
        { s.stats with errors := s.stats.errors + 1 } } := by
      have := congrArg Prod.fst h
      exact this.symm
    rw [hs]
    exact ⟨horig, rfl, rfl, rfl, rfl, rfl, rfl, rfl⟩
  · dsimp only at h
    split at h
    · exact absurd (congrArg Prod.snd h) (by simp)
    · exact absurd (congrArg Prod.snd h) (by simp)

theorem cmf_none_spec (cfg : DedupCfg) (s s' : EngSt) (m : FileRec)
    (h : consolidate_master_file cfg s m = (s', none)) :
    m.originalPath ∉ s.fs.live ∧
    (∀ p, get_master_file_path s.cat m.id = some p → p ∉ s.fs.live) ∧
    s'.cat = s.cat ∧ s'.fs = s.fs ∧
    s'.moves = s.moves ∧ s'.links = s.links ∧
    s'.stats.filesConsolidated = s.stats.filesConsolidated ∧
    s'.stats.symlinksCreated = s.stats.symlinksCreated ∧
    s'.stats.filesDeduplicated = s.stats.filesDeduplicated := by
  rw [consolidate_master_file] at h
  cases hm : get_master_file_path s.cat m.id with
  | none =>
    rw [hm] at h
    obtain ⟨h1, h2, h3, h4, h5, h6, h7, h8⟩ := cmm_none_spec cfg s s' m h
    refine ⟨h1, ?_, h2, h3, h4, h5, h6, h7, h8⟩
    intro p hp
    exact absurd hp (by simp)
  | some p =>
    rw [hm] at h
    dsimp only at h
    split at h
    · exact absurd (congrArg Prod.snd h) (by simp)
    · next hp =>
      obtain ⟨h1, h2, h3, h4, h5, h6, h7, h8⟩ := cmm_none_spec cfg s s' m h
      refine ⟨h1, ?_, h2, h3, h4, h5, h6, h7, h8⟩
      intro q hq
      rw [← Option.some_inj.mp hq]
      exact hp

theorem processGroup_frame (cfg : DedupCfg) (s : EngSt) (g : GroupRec) :
    EngFrame cfg s (processGroup cfg s g) := by
  rw [processGroup]
  split
  · exact engFrame_rfl cfg s
  · dsimp only
    split
    · exact engFrame_rfl cfg s
    · split
      · exact engFrame_rfl cfg s
      · rename_i x mf heqf
        split
        · next st1 heq =>
          have hf := consolidate_master_file_frame cfg s mf
          rw [heq] at hf
          exact hf
        · next st1 mpth heq =>
          have hf1 := consolidate_master_file_frame cfg s mf
          rw [heq] at hf1
          have hf2 := foldl_engFrame cfg
            (fun s' dup_file =>
              if dup_file.id ≠ mf.id ∧
                  dup_file.dedupStatus = "not_processed" then
                (create_symlink_for_duplicate cfg s' dup_file mpth).1
              else s')
            (fun s' a => by
              dsimp only
              split
              · exact create_symlink_for_duplicate_frame cfg s' a mpth
              · exact engFrame_rfl cfg s')
            (get_duplicate_group_files s.cat g.groupHash) st1
          split
          · exact engFrame_trans hf1 hf2
          · refine engFrame_trans hf1 (engFrame_trans hf2 ?_)
            exact ⟨forall₂_rfl sameCore_rfl _, List.prefix_refl _,
              ugd_forall₂ _ _ _, fun p hp => Or.inl hp, fun p hp => hp⟩

theorem processGroup_entries (cfg : DedupCfg) (s : EngSt) (g : GroupRec) :
    ∀ e ∈ (processGroup cfg s g).cat.pathEnts,
      e ∈ s.cat.pathEnts ∨ e.pathType = "symlink" ∨
      ∃ m, (get_duplicate_group_files s.cat g.groupHash).find?
          (fun f => some f.id = g.masterFileId) = some m ∧
        e.pathType = "consolidated" ∧ e.fileId = m.id := by
  rw [processGroup]
  split
  · intro e he; exact Or.inl he
  · dsimp only
    split
    · intro e he; exact Or.inl he
    · split
      · intro e he; exact Or.inl he
      · rename_i x mf heqf
        split
        · next st1 heq =>
          intro e he
          have h1 := cmf_entries cfg s mf e (by rw [heq]; exact he)
          cases h1 with
          | inl h2 => exact Or.inl h2
          | inr h2 => exact Or.inr (Or.inr ⟨mf, heqf, h2.1, h2.2⟩)
        · next st1 mpth heq =>
          intro e he
          have he2 : e ∈ (List.foldl
              (fun s' dup_file =>
                if dup_file.id ≠ mf.id ∧
                    dup_file.dedupStatus = "not_processed" then
                  (create_symlink_for_duplicate cfg s' dup_file mpth).1
                else s')
              st1 (get_duplicate_group_files s.cat g.groupHash)).cat.pathEnts := by
            by_cases hdc : cfg.dryRun = true
            · rw [if_pos hdc] at he
              exact he
            · rw [if_neg hdc] at he
              exact he
          have h1 := foldl_entries _ (fun e => e.pathType = "symlink")
            (fun s' a e' he' => by
              revert he'
              split
              · intro he'
                exact csl_entries cfg s' a mpth e' he'
              · intro he'
                exact Or.inl he')
            (get_duplicate_group_files s.cat g.groupHash) st1 e he2
          cases h1 with
          | inl h2 =>
            have h3 := cmf_entries cfg s mf e (by rw [heq]; exact h2)
            cases h3 with
            | inl h4 => exact Or.inl h4
            | inr h4 => exact Or.inr (Or.inr ⟨mf, heqf, h4.1, h4.2⟩)
          | inr h2 => exact Or.inr (Or.inl h2)

theorem cuf_error_spec (cfg : DedupCfg) (s : EngSt) (row : FileRec)
    (h : row.originalPath ∉ s.fs.live) :
    (consolidate_unique_file cfg s row).1 =
      { s with stats := { s.stats with errors := s.stats.errors + 1 } } := by
  rw [consolidate_unique_file, if_pos h]

theorem cuf_success_marks (cfg : DedupCfg) (s : EngSt) (row : FileRec)
    (hdry : cfg.dryRun = false)
    (h : row.originalPath ∈ s.fs.live) :
    ((consolidate_unique_file cfg s row).1).cat.files =
      mark_deduplicated s.cat.files row.id "deduplicated" cfg.ts := by
  rw [consolidate_unique_file, if_neg (not_not_intro h), hdry]
  rw [if_neg (by simp)]
  dsimp only
  rw [markDeduplicatedCat]
  dsimp only
  rw [ucp_files]

/-- After the unique-file pass, every selected file is either marked
`deduplicated` in the catalog or its original path is (still) missing. -/
theorem ufold_spec (cfg : DedupCfg) (hdry : cfg.dryRun = false) :
    ∀ (us : List FileRec) (s : EngSt),
      (∀ f ∈ us, ¬ ∃ x y z : String,
        f.originalPath = cfg.base ++ [x, y, z]) →
      (∀ f ∈ us, ∃ r ∈ s.cat.files, r.id = f.id) →
      EngFrame cfg s (us.foldl
        (fun s' row => (consolidate_unique_file cfg s' row).1) s) ∧
      ∀ f ∈ us,
        (∃ g ∈ (us.foldl (fun s' row =>
            (consolidate_unique_file cfg s' row).1) s).cat.files,
          g.id = f.id ∧ g.dedupStatus = "deduplicated") ∨
        f.originalPath ∉ (us.foldl (fun s' row =>
          (consolidate_unique_file cfg s' row).1) s).fs.live := by
  intro us
  induction us with
  | nil =>
    intro s h1 h2
    exact ⟨engFrame_rfl cfg s, fun f hf => absurd hf (List.not_mem_nil f)⟩
  | cons f0 rest ih =>
    intro s hshape hid
    have hstep : EngFrame cfg s (consolidate_unique_file cfg s f0).1 :=
      consolidate_unique_file_frame cfg s f0
    have hid' : ∀ f ∈ rest,
        ∃ r ∈ ((consolidate_unique_file cfg s f0).1).cat.files,
          r.id = f.id := by
      intro f hf
      obtain ⟨r, hr, hrid⟩ := hid f (List.mem_cons_of_mem _ hf)
      obtain ⟨r', hr', hcore⟩ := forall₂_mem_left hstep.1 r hr
      exact ⟨r', hr', hcore.1.trans hrid⟩
    obtain ⟨ihframe, ihmem⟩ := ih ((consolidate_unique_file cfg s f0).1)
      (fun f hf => hshape f (List.mem_cons_of_mem _ hf)) hid'
    rw [List.foldl_cons]
    refine ⟨engFrame_trans hstep ihframe, ?_⟩
    intro f hf
    cases List.mem_cons.mp hf with
    | inr hrest => exact ihmem f hrest
    | inl hfeq =>
      subst hfeq
      by_cases horig : f.originalPath ∈ s.fs.live
      · left
        have hfiles := cuf_success_marks cfg s f hdry horig
        obtain ⟨r, hr, hrid⟩ := hid f (List.mem_cons_self _ _)
        have hmem1 : ∃ g ∈ ((consolidate_unique_file cfg s f).1).cat.files,
            g.id = f.id ∧ g.dedupStatus = "deduplicated" := by
          rw [hfiles, mark_deduplicated]
          refine ⟨_, List.mem_map.mpr ⟨r, hr, rfl⟩, ?_, ?_⟩
          · dsimp only
            rw [if_pos hrid]
            exact hrid
          · dsimp only
            rw [if_pos hrid]
        obtain ⟨g1, hg1, hg1id, hg1st⟩ := hmem1
        obtain ⟨g2, hg2, hcore⟩ := forall₂_mem_left ihframe.1 g1 hg1
        exact ⟨g2, hg2, hcore.1.trans hg1id, sameCore_dedup_fwd hcore hg1st⟩
      · right
        intro hlive
        cases ihframe.2.2.2.1 _ hlive with
        | inl h1 =>
          rw [cuf_error_spec cfg s f horig] at h1
          exact horig h1
        | inr h1 =>
          exact hshape f (List.mem_cons_self _ _) h1.2

/-- Engine states equal except possibly in the error counter. -/
def sameButErrors (a b : EngSt) : Prop :=
  a.cat = b.cat ∧ a.fs = b.fs ∧ a.moves = b.moves ∧ a.links = b.links ∧
  a.stats.filesConsolidated = b.stats.filesConsolidated ∧
  a.stats.symlinksCreated = b.stats.symlinksCreated ∧
  a.stats.filesDeduplicated = b.stats.filesDeduplicated

theorem sbe_rfl (a : EngSt) : sameButErrors a a :=
  ⟨rfl, rfl, rfl, rfl, rfl, rfl, rfl⟩

theorem sbe_trans {a b c : EngSt} (h1 : sameButErrors a b)
    (h2 : sameButErrors b c) : sameButErrors a c :=
  ⟨h1.1.trans h2.1, h1.2.1.trans h2.2.1, h1.2.2.1.trans h2.2.2.1,
    h1.2.2.2.1.trans h2.2.2.2.1, h1.2.2.2.2.1.trans h2.2.2.2.2.1,
    h1.2.2.2.2.2.1.trans h2.2.2.2.2.2.1,
    h1.2.2.2.2.2.2.trans h2.2.2.2.2.2.2⟩

/-- A second-pass unique-file fold over files whose originals are all
missing is inert (every call takes the error branch). -/
theorem ufold_inert (cfg : DedupCfg) :
    ∀ (us : List FileRec) (s : EngSt),
      (∀ f ∈ us, f.originalPath ∉ s.fs.live) →
      sameButErrors (us.foldl (fun s' row =>
        (consolidate_unique_file cfg s' row).1) s) s := by
  intro us
  induction us with
  | nil => intro s _; exact sbe_rfl s
  | cons f0 rest ih =>
    intro s h
    rw [List.foldl_cons]
    have herr := cuf_error_spec cfg s f0 (h f0 (List.mem_cons_self _ _))
    have hrest := ih ((consolidate_unique_file cfg s f0).1) (by
      intro f hf
      rw [herr]
      exact h f (List.mem_cons_of_mem _ hf))
    refine sbe_trans hrest ?_
    rw [herr]
    exact ⟨rfl, rfl, rfl, rfl, rfl, rfl, rfl⟩

/-- A group on which `processGroup` can do nothing: already marked, no
members, no master, or a master with a dead recorded path and a dead
original. -/
def groupInert (s : EngSt) (g : GroupRec) : Prop :=
  g.deduplicatedAt.isSome = true ∨
  (get_duplicate_group_files s.cat g.groupHash).isEmpty = true ∨
  (get_duplicate_group_files s.cat g.groupHash).find?
    (fun f => some f.id = g.masterFileId) = none ∨
  ∃ m, (get_duplicate_group_files s.cat g.groupHash).find?
      (fun f => some f.id = g.masterFileId) = some m ∧
    (∀ p, get_master_file_path s.cat m.id = some p → p ∉ s.fs.live) ∧
    m.originalPath ∉ s.fs.live

theorem cmf_dead (cfg : DedupCfg) (s : EngSt) (m : FileRec)
    (hdead : ∀ p, get_master_file_path s.cat m.id = some p → p ∉ s.fs.live)
    (horig : m.originalPath ∉ s.fs.live) :
    consolidate_master_file cfg s m =
      ({ s with stats := { s.stats with errors := s.stats.errors + 1 } },
        none) := by
  rw [consolidate_master_file]
  cases hm : get_master_file_path s.cat m.id with
  | none => rw [consolidate_master_move, if_pos horig]
  | some p =>
    dsimp only
    rw [if_neg (hdead p hm)]
    rw [consolidate_master_move, if_pos horig]

theorem processGroup_inert (cfg : DedupCfg) (s : EngSt) (g : GroupRec)
    (h : groupInert s g) : sameButErrors (processGroup cfg s g) s := by
  rw [processGroup]
  by_cases hds : g.deduplicatedAt.isSome = true
  · rw [if_pos hds]
    exact sbe_rfl s
  · rw [if_neg hds]
    dsimp only
    by_cases hemp :
        (get_duplicate_group_files s.cat g.groupHash).isEmpty = true
    · rw [if_pos hemp]
      exact sbe_rfl s
    · rw [if_neg hemp]
      have h4 : (get_duplicate_group_files s.cat g.groupHash).find?
          (fun f => some f.id = g.masterFileId) = none ∨
          ∃ m, (get_duplicate_group_files s.cat g.groupHash).find?
              (fun f => some f.id = g.masterFileId) = some m ∧
            (∀ p, get_master_file_path s.cat m.id = some p →
              p ∉ s.fs.live) ∧
            m.originalPath ∉ s.fs.live := by
        rcases h with h | h | h | h
        · exact absurd h hds
        · exact absurd h hemp
        · exact Or.inl h
        · exact Or.inr h
      cases h4 with
      | inl hn =>
        rw [hn]
        exact sbe_rfl s
      | inr hex =>
        obtain ⟨m, hm, hdead, horig⟩ := hex
        rw [hm]
        dsimp only
        rw [cmf_dead cfg s m hdead horig]
        exact ⟨rfl, rfl, rfl, rfl, rfl, rfl, rfl⟩

theorem groupInert_congr {s s' : EngSt} (hcat : s'.cat = s.cat)
    (hfs : s'.fs = s.fs) {g : GroupRec} (h : groupInert s g) :
    groupInert s' g := by
  unfold groupInert at h ⊢
  rw [hcat, hfs]
  exact h

/-- A second-pass group fold over inert groups is inert. -/
theorem gfold_inert (cfg : DedupCfg) :
    ∀ (gs : List GroupRec) (s : EngSt), (∀ g ∈ gs, groupInert s g) →
      sameButErrors (gs.foldl (processGroup cfg) s) s := by
  intro gs
  induction gs with
  | nil => intro s _; exact sbe_rfl s
  | cons g0 rest ih =>
    intro s h
    rw [List.foldl_cons]
    have h0 := processGroup_inert cfg s g0 (h g0 (List.mem_cons_self _ _))
    have hrest := ih (processGroup cfg s g0) (fun g hg =>
      groupInert_congr h0.1 h0.2.1 (h g (List.mem_cons_of_mem _ hg)))
    exact sbe_trans hrest h0

/-- The non-skip part of `groupInert`: the group cannot make progress
because it has no members, no master, or a master whose recorded path is
dead and whose original is missing. -/
def groupDead (s : EngSt) (g : GroupRec) : Prop :=
  (get_duplicate_group_files s.cat g.groupHash).isEmpty = true ∨
  (get_duplicate_group_files s.cat g.groupHash).find?
    (fun f => some f.id = g.masterFileId) = none ∨
  ∃ m, (get_duplicate_group_files s.cat g.groupHash).find?
      (fun f => some f.id = g.masterFileId) = some m ∧
    (∀ p, get_master_file_path s.cat m.id = some p → p ∉ s.fs.live) ∧
    m.originalPath ∉ s.fs.live

theorem groupDead_inert {s : EngSt} {g : GroupRec} (h : groupDead s g) :
    groupInert s g := by
  rcases h with h | h | h
  · exact Or.inr (Or.inl h)
  · exact Or.inr (Or.inr (Or.inl h))
  · exact Or.inr (Or.inr (Or.inr h))

/-- `groupDead` only looks at the group's hash and master reference. -/
theorem groupDead_key {s : EngSt} {g g' : GroupRec}
    (hh : g'.groupHash = g.groupHash)
    (hm : g'.masterFileId = g.masterFileId) (h : groupDead s g) :
    groupDead s g' := by
  unfold groupDead at h ⊢
  rw [hh, hm]
  exact h

theorem gmfp_entry (c : Catalog) (fid : Nat) (p : FPath)
    (h : get_master_file_path c fid = some p) :
    ∃ e ∈ c.pathEnts, e.fileId = fid ∧ e.pathType = "consolidated" ∧
      e.path = p := by
  rw [get_master_file_path] at h
  obtain ⟨e, hhead, hpath⟩ := Option.map_eq_some'.mp h
  have hef : e ∈ c.pathEnts.filter (fun e =>
      decide (e.fileId = fid ∧ e.pathType = "consolidated")) := by
    cases hf : c.pathEnts.filter (fun e =>
        decide (e.fileId = fid ∧ e.pathType = "consolidated")) with
    | nil => rw [hf] at hhead; exact absurd hhead (by simp)
    | cons a tl =>
      rw [hf] at hhead
      rw [List.head?_cons] at hhead
      rw [← Option.some_inj.mp hhead]
      exact List.mem_cons_self _ _
  obtain ⟨hmem, hpred⟩ := List.mem_filter.mp hef
  obtain ⟨h1, h2⟩ := of_decide_eq_true hpred
  exact ⟨e, hmem, h1, h2, hpath⟩

theorem gmfp_ne_none (c : Catalog) (fid : Nat) (e : PathEnt)
    (hmem : e ∈ c.pathEnts) (hid : e.fileId = fid)
    (hty : e.pathType = "consolidated") :
    get_master_file_path c fid ≠ none := by
  rw [get_master_file_path]
  have hef : e ∈ c.pathEnts.filter (fun e =>
      decide (e.fileId = fid ∧ e.pathType = "consolidated")) :=
    List.mem_filter.mpr ⟨hmem, decide_eq_true ⟨hid, hty⟩⟩
  cases hf : c.pathEnts.filter (fun e =>
      decide (e.fileId = fid ∧ e.pathType = "consolidated")) with
  | nil => rw [hf] at hef; exact absurd hef (List.not_mem_nil e)
  | cons a tl => simp [hf]

/-- The outcome of one group iteration on a pending group: either the
group's hash is marked in the resulting catalog, or nothing changed (but
the error count) and the group is dead at the current state. -/
theorem processGroup_cases (cfg : DedupCfg) (s : EngSt) (g : GroupRec)
    (hdry : cfg.dryRun = false)
    (hpend : g.deduplicatedAt = none)
    (hg : ∃ gr ∈ s.cat.groups, gr.groupHash = g.groupHash) :
    (∃ g' ∈ (processGroup cfg s g).cat.groups,
      g'.groupHash = g.groupHash ∧ g'.deduplicatedAt.isSome = true) ∨
    ((processGroup cfg s g).cat = s.cat ∧
      (processGroup cfg s g).fs = s.fs ∧ groupDead s g) := by
  rw [processGroup]
  simp only [hpend, Option.isSome_none, Bool.false_eq_true, if_false]
  by_cases hemp : (get_duplicate_group_files s.cat g.groupHash).isEmpty = true
  · rw [if_pos hemp]
    exact Or.inr ⟨rfl, rfl, Or.inl hemp⟩
  · rw [if_neg hemp]
    cases hfind : (get_duplicate_group_files s.cat g.groupHash).find?
        (fun f => some f.id = g.masterFileId) with
    | none =>
      exact Or.inr ⟨rfl, rfl, Or.inr (Or.inl hfind)⟩
    | some mf =>
      dsimp only
      cases hcm : consolidate_master_file cfg s mf with
      | mk st1 opt =>
        cases opt with
        | none =>
          obtain ⟨h1, h2, h3, h4, _⟩ := cmf_none_spec cfg s st1 mf hcm
          exact Or.inr ⟨h3, h4, Or.inr (Or.inr ⟨mf, hfind, h2, h1⟩)⟩
        | some mp =>
          left
          simp only [hdry, Bool.false_eq_true, if_false]
          obtain ⟨gr, hgr, hgrh⟩ := hg
          have hf1 : EngFrame cfg s st1 := by
            have hfr := consolidate_master_file_frame cfg s mf
            rw [hcm] at hfr
            exact hfr
          have hf2 := foldl_engFrame cfg
            (fun s' dup_file =>
              if dup_file.id ≠ mf.id ∧
                  dup_file.dedupStatus = "not_processed" then
                (create_symlink_for_duplicate cfg s' dup_file mp).1
              else s')
            (fun s' a => by
              dsimp only
              split
              · exact create_symlink_for_duplicate_frame cfg s' a mp
              · exact engFrame_rfl cfg s')
            (get_duplicate_group_files s.cat g.groupHash) st1
          obtain ⟨gr1, hgr1, hcore1⟩ :=
            forall₂_mem_left (engFrame_trans hf1 hf2).2.2.1 gr hgr
          have hgr1h : gr1.groupHash = g.groupHash := hcore1.1.trans hgrh
          refine ⟨_, List.mem_map.mpr ⟨gr1, hgr1, rfl⟩, ?_, ?_⟩
          · dsimp only
            rw [if_pos hgr1h]
            exact hgr1h
          · dsimp only
            rw [if_pos hgr1h]
            rfl

theorem forall₂_nil_right {α : Type} {R : α → α → Prop} {l' : List α}
    (h : List.Forall₂ R [] l') : l' = [] := by
  cases h
  rfl

theorem nodup_map_inj {α β : Type} {f : α → β} :
    ∀ {l : List α}, (l.map f).Nodup →
      ∀ x ∈ l, ∀ y ∈ l, f x = f y → x = y := by
  intro l
  induction l with
  | nil => intro _ x hx; exact absurd hx (List.not_mem_nil x)
  | cons a t ih =>
    intro hnd x hx y hy hxy
    rw [List.map_cons, List.nodup_cons] at hnd
    cases List.mem_cons.mp hx with
    | inl hxa =>
      cases List.mem_cons.mp hy with
      | inl hya => rw [hxa, hya]
      | inr hyt =>
        exfalso
        apply hnd.1
        rw [List.mem_map]
        exact ⟨y, hyt, by rw [← hxy, hxa]⟩
    | inr hxt =>
      cases List.mem_cons.mp hy with
      | inl hya =>
        exfalso
        apply hnd.1
        rw [List.mem_map]
        exact ⟨x, hxt, by rw [hxy, hya]⟩
      | inr hyt => exact ih hnd.2 x hxt y hyt hxy

/-- The group pass: the state stays in the frame, every new path entry is
a symlink entry or a consolidated entry for the master of one of the
processed groups, and every pending group ends up marked or dead. -/
theorem gfold_spec (cfg : DedupCfg) (hdry : cfg.dryRun = false) :
    ∀ (gs : List GroupRec) (s : EngSt),
      List.Pairwise (fun a b => a.groupHash ≠ b.groupHash) gs →
      (s.cat.files.map FileRec.id).Nodup →
      (∀ f ∈ s.cat.files, ¬ ∃ x y z : String,
        f.originalPath = cfg.base ++ [x, y, z]) →
      (∀ g ∈ gs, ∃ gr ∈ s.cat.groups, gr.groupHash = g.groupHash) →
      EngFrame cfg s (gs.foldl (processGroup cfg) s) ∧
      (∀ e ∈ (gs.foldl (processGroup cfg) s).cat.pathEnts,
        e ∈ s.cat.pathEnts ∨ e.pathType = "symlink" ∨
        ∃ g' ∈ gs, ∃ r ∈ s.cat.files, r.id = e.fileId ∧
          r.fileHash = some g'.groupHash ∧
          g'.masterFileId = some e.fileId) ∧
      (∀ g ∈ gs, g.deduplicatedAt = none →
        (∃ g' ∈ (gs.foldl (processGroup cfg) s).cat.groups,
          g'.groupHash = g.groupHash ∧ g'.deduplicatedAt.isSome = true) ∨
        groupDead (gs.foldl (processGroup cfg) s) g) := by
  intro gs
  induction gs with
  | nil =>
    intro s hpw hids hshape hg
    exact ⟨engFrame_rfl cfg s, fun e he => Or.inl he,
      fun g hg' => absurd hg' (List.not_mem_nil g)⟩
  | cons g0 rest ih =>
    intro s hpw hids hshape hg
    have hstep : EngFrame cfg s (processGroup cfg s g0) :=
      processGroup_frame cfg s g0
    have hstepEnt := processGroup_entries cfg s g0
    have hids1 : ((processGroup cfg s g0).cat.files.map FileRec.id).Nodup := by
      rw [forall₂_id_map hstep.1]
      exact hids
    have hshape1 : ∀ f ∈ (processGroup cfg s g0).cat.files,
        ¬ ∃ x y z : String, f.originalPath = cfg.base ++ [x, y, z] := by
      intro f hf hex
      obtain ⟨f0, hf0, hcore⟩ := forall₂_mem_right hstep.1 f hf
      exact hshape f0 hf0 (by rw [← hcore.2.1]; exact hex)
    have hg1 : ∀ g ∈ rest, ∃ gr ∈ (processGroup cfg s g0).cat.groups,
        gr.groupHash = g.groupHash := by
      intro g hgr
      obtain ⟨gr, hgrm, hgrh⟩ := hg g (List.mem_cons_of_mem _ hgr)
      obtain ⟨gr', hgr', hcore⟩ := forall₂_mem_left hstep.2.2.1 gr hgrm
      exact ⟨gr', hgr', hcore.1.trans hgrh⟩
    obtain ⟨ihFrame, ihEnt, ihOut⟩ := ih (processGroup cfg s g0)
      (List.Pairwise.of_cons hpw) hids1 hshape1 hg1
    rw [List.foldl_cons]
    refine ⟨engFrame_trans hstep ihFrame, ?_, ?_⟩
    · intro e he
      cases ihEnt e he with
      | inr h1 =>
        cases h1 with
        | inl hsym => exact Or.inr (Or.inl hsym)
        | inr hex =>
          obtain ⟨g', hg', r, hr, hrid, hrhash, hmfid⟩ := hex
          obtain ⟨r0, hr0, hcore⟩ := forall₂_mem_right hstep.1 r hr
          refine Or.inr (Or.inr ⟨g', List.mem_cons_of_mem _ hg', r0, hr0,
            ?_, ?_, hmfid⟩)
          · rw [← hcore.1]
            exact hrid
          · rw [← hcore.2.2.1]
            exact hrhash
      | inl h1 =>
        cases hstepEnt e h1 with
        | inl h2 => exact Or.inl h2
        | inr h2 =>
          cases h2 with
          | inl hsym => exact Or.inr (Or.inl hsym)
          | inr hex =>
            obtain ⟨m, hfind, hty, hfid⟩ := hex
            have hmm2 := List.mem_of_find?_eq_some hfind
            rw [get_duplicate_group_files] at hmm2
            obtain ⟨hmfiles, hmpred⟩ := List.mem_filter.mp hmm2
            have hmhash : m.fileHash = some g0.groupHash :=
              of_decide_eq_true hmpred
            have hprr := List.find?_some hfind
            have hmfid2 : g0.masterFileId = some m.id :=
              (of_decide_eq_true hprr).symm
            refine Or.inr (Or.inr ⟨g0, List.mem_cons_self _ _, m, hmfiles,
              hfid.symm, hmhash, ?_⟩)
            rw [hfid]
            exact hmfid2
    · intro g hgmem hpend
      cases List.mem_cons.mp hgmem with
      | inr hrest => exact ihOut g hrest hpend
      | inl heq =>
        subst heq
        cases processGroup_cases cfg s g hdry hpend
            (hg g (List.mem_cons_self _ _)) with
        | inl hmarked =>
          left
          obtain ⟨g', hg', hh, hs⟩ := hmarked
          obtain ⟨g'', hg'', hcore⟩ := forall₂_mem_left ihFrame.2.2.1 g' hg'
          refine ⟨g'', hg'', hcore.1.trans hh, ?_⟩
          cases hcore.2.2.2 with
          | inl hsame => rw [hsame]; exact hs
          | inr hsome => exact hsome
        | inr hB =>
          obtain ⟨hcat, hfs, hdead⟩ := hB
          right
          have hfull : EngFrame cfg s
              (rest.foldl (processGroup cfg) (processGroup cfg s g)) :=
            engFrame_trans hstep ihFrame
          have hgdf := gdf_forall₂ s.cat
            (rest.foldl (processGroup cfg) (processGroup cfg s g)).cat
            g.groupHash hfull.1
          rcases hdead with hemp | hnone | hex
          · left
            have hnil : get_duplicate_group_files s.cat g.groupHash = [] :=
              List.isEmpty_iff.mp hemp
            rw [hnil] at hgdf
            rw [forall₂_nil_right hgdf]
            rfl
          · right; left
            exact forall₂_find?_none _
              (fun a b hab => decide_eq_decide.mpr (by rw [hab.1])) hgdf
              hnone
          · right; right
            obtain ⟨m, hfind, hdeadp, horigm⟩ := hex
            have hmm2 := List.mem_of_find?_eq_some hfind
            rw [get_duplicate_group_files] at hmm2
            obtain ⟨hmfiles, hmpred⟩ := List.mem_filter.mp hmm2
            have hmhash : m.fileHash = some g.groupHash :=
              of_decide_eq_true hmpred
            obtain ⟨m', hfind', hcorem⟩ := forall₂_find?_some _
              (fun a b hab => decide_eq_decide.mpr (by rw [hab.1])) hgdf
              m hfind
            refine ⟨m', hfind', ?_, ?_⟩
            · intro p hp
              rw [hcorem.1] at hp
              cases hgm : get_master_file_path s.cat m.id with
              | some p0 =>
                have hp0 := gmfp_mono s.cat
                  (rest.foldl (processGroup cfg)
                    (processGroup cfg s g)).cat hfull.2.1 m.id p0 hgm
                have hpeq : p = p0 := Option.some_inj.mp (hp.symm.trans hp0)
                subst hpeq
                intro hlive
                cases hfull.2.2.2.1 p hlive with
                | inl h1 => exact hdeadp p hgm h1
                | inr h1 =>
                  obtain ⟨e, he, heid, hety, hepath⟩ :=
                    gmfp_entry s.cat m.id p hgm
                  have hcpe : consolidated_path_exists s.cat p = true := by
                    rw [consolidated_path_exists, List.any_eq_true]
                    exact ⟨e, he, decide_eq_true ⟨hety, hepath⟩⟩
                  rw [h1.1] at hcpe
                  exact absurd hcpe (by decide)
              | none =>
                exfalso
                obtain ⟨e, he, heid, hety, hepath⟩ := gmfp_entry _ m.id p hp
                cases ihEnt e he with
                | inl h1 =>
                  rw [hcat] at h1
                  exact absurd hgm (gmfp_ne_none s.cat m.id e h1 heid hety)
                | inr h1 =>
                  cases h1 with
                  | inl hsym =>
                    exact absurd (hety.symm.trans hsym) (by decide)
                  | inr hex2 =>
                    obtain ⟨g', hg'rest, r, hr1, hrid, hrhash, hmfid'⟩ :=
                      hex2
                    rw [hcat] at hr1
                    have hrm : r = m := nodup_map_inj hids r hr1 m hmfiles
                      (hrid.trans heid)
                    have hne := List.rel_of_pairwise_cons hpw hg'rest
                    have hgg : g'.groupHash = g.groupHash := by
                      have h5 : m.fileHash = some g'.groupHash := by
                        rw [← hrm]
                        exact hrhash
                      exact Option.some_inj.mp (h5.symm.trans hmhash)
                    exact hne hgg.symm
            · rw [hcorem.2.1]
              intro hlive
              cases hfull.2.2.2.1 _ hlive with
              | inl h1 => exact horigm h1
              | inr h1 => exact hshape m hmfiles h1.2

theorem prefix_of_shape {b p : FPath}
    (h : ∃ x y z : String, p = b ++ [x, y, z]) : b <+: p := by
  obtain ⟨x, y, z, hp⟩ := h
  exact ⟨[x, y, z], hp.symm⟩

theorem not_mem_removePath_self (l : List FPath) (p : FPath) :
    p ∉ removePath l p := by
  intro h
  exact (of_decide_eq_true (List.mem_filter.mp h).2) rfl

theorem removePath_of_not_mem {l : List FPath} {p : FPath} (h : p ∉ l) :
    removePath l p = l := by
  rw [removePath]
  refine List.filter_eq_self.mpr ?_
  intro q hq
  refine decide_eq_true ?_
  intro he
  exact h (he ▸ hq)

theorem addDir_of_mem {ds : List FPath} {p : FPath} (h : p ∈ ds) :
    addDir ds p = ds := by
  rw [addDir, if_pos h]

theorem uds_files (c : Catalog) (a b d : Nat) (ts : String) :
    (update_deduplication_statistics c a b d ts).files = c.files := rfl

theorem uds_pathEnts (c : Catalog) (a b d : Nat) (ts : String) :
    (update_deduplication_statistics c a b d ts).pathEnts = c.pathEnts := rfl

theorem uds_groups (c : Catalog) (a b d : Nat) (ts : String) :
    (update_deduplication_statistics c a b d ts).groups = c.groups := rfl

theorem guf_uds (c : Catalog) (a b d : Nat) (ts : String) :
    get_unique_files (update_deduplication_statistics c a b d ts) =
      get_unique_files c := by
  rw [get_unique_files, get_unique_files, uds_files]

theorem groupDead_congr2 {s s' : EngSt} (hf : s'.cat.files = s.cat.files)
    (hpe : s'.cat.pathEnts = s.cat.pathEnts)
    (hlive : s'.fs.live = s.fs.live) {g : GroupRec} (h : groupDead s g) :
    groupDead s' g := by
  have h1 : get_duplicate_group_files s'.cat g.groupHash =
      get_duplicate_group_files s.cat g.groupHash := by
    rw [get_duplicate_group_files, get_duplicate_group_files, hf]
  have h2 : ∀ fid, get_master_file_path s'.cat fid =
      get_master_file_path s.cat fid := by
    intro fid
    rw [get_master_file_path, get_master_file_path, hpe]
  unfold groupDead
  simp only [h1, h2, hlive]
  exact h

/-- The engine state after `_preflight_checks` on a fresh run. -/
def runSt1 (cfg : DedupCfg) (cat : Catalog) (fs : FS) : EngSt :=
  preflight_checks cfg ⟨cat, fs, zeroStats, [], []⟩

/-- The engine state after the unique-file pass. -/
def runSt2 (cfg : DedupCfg) (cat : Catalog) (fs : FS) : EngSt :=
  (get_unique_files (runSt1 cfg cat fs).cat).foldl
    (fun s row => (consolidate_unique_file cfg s row).1) (runSt1 cfg cat fs)

/-- The engine state after the duplicate-group pass. -/
def runSt3 (cfg : DedupCfg) (cat : Catalog) (fs : FS) : EngSt :=
  (get_duplicate_groups_for_processing (runSt2 cfg cat fs).cat).foldl
    (processGroup cfg) (runSt2 cfg cat fs)

theorem runDedup_not_dry (cfg : DedupCfg) (cat : Catalog) (fs : FS)
    (hdry : cfg.dryRun = false) :
    (runDedup cfg cat fs).cat =
      update_deduplication_statistics (runSt3 cfg cat fs).cat
        (runSt3 cfg cat fs).stats.filesConsolidated
        (runSt3 cfg cat fs).stats.symlinksCreated
        (runSt3 cfg cat fs).stats.filesDeduplicated cfg.ts ∧
    (runDedup cfg cat fs).fs = (runSt3 cfg cat fs).fs ∧
    (runDedup cfg cat fs).moves = (runSt3 cfg cat fs).moves ∧
    (runDedup cfg cat fs).links = (runSt3 cfg cat fs).links := by
  refine ⟨?_, ?_, ?_, ?_⟩ <;>
    · simp only [runDedup, consolidate_files, hdry, Bool.false_eq_true,
        if_false]
      rfl

/-- C3 (amended): the persisted counters are overwritten per run — not
additive — so a quiescent second run rewrites them with its own zero
counts (see `second_run_changes_statistics_counterexample`).  The
moves/links half of idempotence does hold: under sanity conditions on the
catalog (distinct file ids, distinct group hashes, no original path under
the consolidation base), a second non-dry run immediately after a first
one moves no file, creates no symlink, leaves the filesystem unchanged,
and its only catalog write is that statistics overwrite. -/
theorem second_run_quiescent (cfg : DedupCfg) (cat : Catalog) (fs : FS)
    (hdry : cfg.dryRun = false)
    (hids : (cat.files.map FileRec.id).Nodup)
    (hhashes : (cat.groups.map GroupRec.groupHash).Nodup)
    (horig : ∀ f ∈ cat.files, ¬ cfg.base <+: f.originalPath) :
    (runDedup cfg (runDedup cfg cat fs).cat
      (runDedup cfg cat fs).fs).moves = [] ∧
    (runDedup cfg (runDedup cfg cat fs).cat
      (runDedup cfg cat fs).fs).links = [] ∧
    (runDedup cfg (runDedup cfg cat fs).cat
      (runDedup cfg cat fs).fs).fs = (runDedup cfg cat fs).fs ∧
    (runDedup cfg (runDedup cfg cat fs).cat
      (runDedup cfg cat fs).fs).cat =
      update_deduplication_statistics (runDedup cfg cat fs).cat 0 0 0
        cfg.ts := by
  have hshapeU : ∀ f ∈ get_unique_files (runSt1 cfg cat fs).cat,
      ¬ ∃ x y z : String, f.originalPath = cfg.base ++ [x, y, z] := by
    intro f hf hex
    have hff : f ∈ cat.files := (List.mem_filter.mp hf).1
    exact horig f hff (prefix_of_shape hex)
  have hidU : ∀ f ∈ get_unique_files (runSt1 cfg cat fs).cat,
      ∃ r ∈ (runSt1 cfg cat fs).cat.files, r.id = f.id := by
    intro f hf
    exact ⟨f, (List.mem_filter.mp hf).1, rfl⟩
  have hU := ufold_spec cfg hdry
    (get_unique_files (runSt1 cfg cat fs).cat) (runSt1 cfg cat fs)
    hshapeU hidU
  have hUframe : EngFrame cfg (runSt1 cfg cat fs) (runSt2 cfg cat fs) :=
    hU.1
  have hUout : ∀ f ∈ get_unique_files (runSt1 cfg cat fs).cat,
      (∃ g ∈ (runSt2 cfg cat fs).cat.files,
        g.id = f.id ∧ g.dedupStatus = "deduplicated") ∨
      f.originalPath ∉ (runSt2 cfg cat fs).fs.live := hU.2
  have hids2 : ((runSt2 cfg cat fs).cat.files.map FileRec.id).Nodup := by
    rw [forall₂_id_map hUframe.1]
    exact hids
  have hhash2 : ((runSt2 cfg cat fs).cat.groups.map
      GroupRec.groupHash).Nodup := by
    rw [forall₂_grouphash_map hUframe.2.2.1]
    exact hhashes
  have hshapeG : ∀ f ∈ (runSt2 cfg cat fs).cat.files,
      ¬ ∃ x y z : String, f.originalPath = cfg.base ++ [x, y, z] := by
    intro f hf hex
    obtain ⟨f0, hf0, hcore⟩ := forall₂_mem_right hUframe.1 f hf
    refine horig f0 hf0 (prefix_of_shape ?_)
    rw [hcore.2.1] at hex
    exact hex
  have hpw2 : List.Pairwise
      (fun a b : GroupRec => a.groupHash ≠ b.groupHash)
      (runSt2 cfg cat fs).cat.groups := List.pairwise_map.mp hhash2
  have hpwG : List.Pairwise
      (fun a b : GroupRec => a.groupHash ≠ b.groupHash)
      (get_duplicate_groups_for_processing (runSt2 cfg cat fs).cat) :=
    List.Pairwise.filter _ hpw2
  have hgG : ∀ g ∈ get_duplicate_groups_for_processing
      (runSt2 cfg cat fs).cat,
      ∃ gr ∈ (runSt2 cfg cat fs).cat.groups, gr.groupHash = g.groupHash :=
    fun g hg => ⟨g, (List.mem_filter.mp hg).1, rfl⟩
  have hG := gfold_spec cfg hdry
    (get_duplicate_groups_for_processing (runSt2 cfg cat fs).cat)
    (runSt2 cfg cat fs) hpwG hids2 hshapeG hgG
  have hGframe : EngFrame cfg (runSt2 cfg cat fs) (runSt3 cfg cat fs) :=
    hG.1
  have hGout : ∀ g ∈ get_duplicate_groups_for_processing
      (runSt2 cfg cat fs).cat, g.deduplicatedAt = none →
      (∃ g' ∈ (runSt3 cfg cat fs).cat.groups,
        g'.groupHash = g.groupHash ∧ g'.deduplicatedAt.isSome = true) ∨
      groupDead (runSt3 cfg cat fs) g := hG.2.2
  have hhash3 : ((runSt3 cfg cat fs).cat.groups.map
      GroupRec.groupHash).Nodup := by
    rw [forall₂_grouphash_map hGframe.2.2.1]
    exact hhash2
  have hframe13 : EngFrame cfg (runSt1 cfg cat fs) (runSt3 cfg cat fs) :=
    engFrame_trans hUframe hGframe
  obtain ⟨hr1cat, hr1fs, hr1mv, hr1lk⟩ := runDedup_not_dry cfg cat fs hdry
  have htf : cfg.base ++ [".test_write"] ∉ (runSt3 cfg cat fs).fs.live := by
    intro hl
    cases hframe13.2.2.2.1 _ hl with
    | inl h1 => exact not_mem_removePath_self fs.live _ h1
    | inr h1 =>
      obtain ⟨x, y, z, hxyz⟩ := h1.2
      have hlen := congrArg List.length hxyz
      rw [List.length_append, List.length_append] at hlen
      simp at hlen
  have hbd : cfg.base ∈ (runSt3 cfg cat fs).fs.dirs :=
    hframe13.2.2.2.2 _ (addDir_self fs.dirs cfg.base)
  have hsfix : (runSt1 cfg (runDedup cfg cat fs).cat
      (runDedup cfg cat fs).fs).fs = (runDedup cfg cat fs).fs := by
    show (⟨removePath (runDedup cfg cat fs).fs.live
        (cfg.base ++ [".test_write"]),
      addDir (runDedup cfg cat fs).fs.dirs cfg.base⟩ : FS) =
      (runDedup cfg cat fs).fs
    rw [hr1fs, removePath_of_not_mem htf, addDir_of_mem hbd]
  have hdead2 : ∀ f ∈ get_unique_files
      (runSt1 cfg (runDedup cfg cat fs).cat (runDedup cfg cat fs).fs).cat,
      f.originalPath ∉ (runSt1 cfg (runDedup cfg cat fs).cat
        (runDedup cfg cat fs).fs).fs.live := by
    intro f hf
    have hf3 : f ∈ get_unique_files (runSt3 cfg cat fs).cat := by
      have hf' : f ∈ get_unique_files (runDedup cfg cat fs).cat := hf
      rw [hr1cat, guf_uds] at hf'
      exact hf'
    obtain ⟨f2, hf2, hcore2⟩ := unique_mem_back (runSt2 cfg cat fs).cat
      (runSt3 cfg cat fs).cat hGframe.1 f hf3
    obtain ⟨f1, hf1, hcore1⟩ := unique_mem_back (runSt1 cfg cat fs).cat
      (runSt2 cfg cat fs).cat hUframe.1 f2 hf2
    have horfp : f.originalPath = f1.originalPath :=
      hcore2.2.1.trans hcore1.2.1
    cases hUout f1 hf1 with
    | inl hmk =>
      exfalso
      obtain ⟨gm, hgm, hgmid, hgmst⟩ := hmk
      have hf2files : f2 ∈ (runSt2 cfg cat fs).cat.files :=
        (List.mem_filter.mp hf2).1
      have hf2id : f2.id = f1.id := hcore1.1
      have hgmf2 : gm = f2 := nodup_map_inj hids2 gm hgm f2 hf2files
        (hgmid.trans hf2id.symm)
      have hf2np : f2.dedupStatus = "not_processed" :=
        (of_decide_eq_true (List.mem_filter.mp hf2).2).1
      rw [hgmf2, hf2np] at hgmst
      exact absurd hgmst (by decide)
    | inr hdd =>
      have hdead3 : f.originalPath ∉ (runSt3 cfg cat fs).fs.live := by
        intro hl
        cases hGframe.2.2.2.1 _ hl with
        | inl h1 =>
          rw [horfp] at h1
          exact hdd h1
        | inr h1 =>
          have hf1files : f1 ∈ cat.files := (List.mem_filter.mp hf1).1
          refine horig f1 hf1files (prefix_of_shape ?_)
          rw [horfp] at h1
          exact h1.2
      intro hl
      apply hdead3
      have hl' : f.originalPath ∈ removePath
          (runDedup cfg cat fs).fs.live (cfg.base ++ [".test_write"]) := hl
      have hl2 := removePath_sub hl'
      rw [hr1fs] at hl2
      exact hl2
  have hU2 : sameButErrors
      (runSt2 cfg (runDedup cfg cat fs).cat (runDedup cfg cat fs).fs)
      (runSt1 cfg (runDedup cfg cat fs).cat (runDedup cfg cat fs).fs) :=
    ufold_inert cfg _ _ hdead2
  have hGin : ∀ g ∈ get_duplicate_groups_for_processing
      (runSt2 cfg (runDedup cfg cat fs).cat (runDedup cfg cat fs).fs).cat,
      groupInert (runSt2 cfg (runDedup cfg cat fs).cat
        (runDedup cfg cat fs).fs) g := by
    intro g1 hg1
    apply groupInert_congr hU2.1 hU2.2.1
    rw [hU2.1] at hg1
    have hg1' : g1 ∈ get_duplicate_groups_for_processing
        (runSt3 cfg cat fs).cat := by
      rw [get_duplicate_groups_for_processing]
      have hx : g1 ∈ get_duplicate_groups_for_processing
          (runDedup cfg cat fs).cat := hg1
      rw [hr1cat, get_duplicate_groups_for_processing, uds_groups] at hx
      exact hx
    have hg1m := List.mem_filter.mp hg1'
    cases hdA : g1.deduplicatedAt with
    | some ts' =>
      exact Or.inl (by rw [hdA]; rfl)
    | none =>
      apply groupDead_inert
      obtain ⟨g0, hg0, hcore0⟩ := forall₂_mem_right hGframe.2.2.1 g1 hg1m.1
      have hg0dA : g0.deduplicatedAt = none := by
        cases hcore0.2.2.2 with
        | inl h1 =>
          rw [← h1]
          exact hdA
        | inr h1 =>
          rw [hdA] at h1
          simp at h1
      have hg0mem : g0 ∈ get_duplicate_groups_for_processing
          (runSt2 cfg cat fs).cat := by
        refine List.mem_filter.mpr ⟨hg0, decide_eq_true ?_⟩
        have hcnt := of_decide_eq_true hg1m.2
        rw [hcore0.2.2.1] at hcnt
        exact hcnt
      cases hGout g0 hg0mem hg0dA with
      | inl hmk =>
        exfalso
        obtain ⟨g', hg', hh', hs'⟩ := hmk
        have hgg1 : g' = g1 := nodup_map_inj hhash3 g' hg' g1 hg1m.1
          (hh'.trans hcore0.1.symm)
        rw [hgg1, hdA] at hs'
        simp at hs'
      | inr hdd0 =>
        apply groupDead_key hcore0.1 hcore0.2.1
        refine groupDead_congr2 ?_ ?_ ?_ hdd0
        · show (runDedup cfg cat fs).cat.files =
            (runSt3 cfg cat fs).cat.files
          rw [hr1cat, uds_files]
        · show (runDedup cfg cat fs).cat.pathEnts =
            (runSt3 cfg cat fs).cat.pathEnts
          rw [hr1cat, uds_pathEnts]
        · show removePath (runDedup cfg cat fs).fs.live
              (cfg.base ++ [".test_write"]) =
            (runSt3 cfg cat fs).fs.live
          rw [hr1fs, removePath_of_not_mem htf]
  have hG2 : sameButErrors
      (runSt3 cfg (runDedup cfg cat fs).cat (runDedup cfg cat fs).fs)
      (runSt2 cfg (runDedup cfg cat fs).cat (runDedup cfg cat fs).fs) :=
    gfold_inert cfg _ _ hGin
  have hfin : sameButErrors
      (runSt3 cfg (runDedup cfg cat fs).cat (runDedup cfg cat fs).fs)
      (runSt1 cfg (runDedup cfg cat fs).cat (runDedup cfg cat fs).fs) :=
    sbe_trans hG2 hU2
  obtain ⟨hr2cat, hr2fs, hr2mv, hr2lk⟩ := runDedup_not_dry cfg
    (runDedup cfg cat fs).cat (runDedup cfg cat fs).fs hdry
  refine ⟨?_, ?_, ?_, ?_⟩
  · exact hr2mv.trans (hfin.2.2.1.trans rfl)
  · exact hr2lk.trans (hfin.2.2.2.1.trans rfl)
  · exact hr2fs.trans (hfin.2.1.trans hsfix)
  · rw [hr2cat]
    have hfc : (runSt3 cfg (runDedup cfg cat fs).cat
        (runDedup cfg cat fs).fs).stats.filesConsolidated = 0 :=
      hfin.2.2.2.2.1.trans rfl
    have hsc : (runSt3 cfg (runDedup cfg cat fs).cat
        (runDedup cfg cat fs).fs).stats.symlinksCreated = 0 :=
      hfin.2.2.2.2.2.1.trans rfl
    have hfd : (runSt3 cfg (runDedup cfg cat fs).cat
        (runDedup cfg cat fs).fs).stats.filesDeduplicated = 0 :=
      hfin.2.2.2.2.2.2.trans rfl
    have hcat3 : (runSt3 cfg (runDedup cfg cat fs).cat
        (runDedup cfg cat fs).fs).cat = (runDedup cfg cat fs).cat :=
      hfin.1.trans rfl
    rw [hfc, hsc, hfd, hcat3]

theorem second_run_quiescent_witness :
    (c3Cfg.dryRun = false ∧ (c3Cat.files.map FileRec.id).Nodup ∧
      (c3Cat.groups.map GroupRec.groupHash).Nodup ∧
      ∀ f ∈ c3Cat.files, ¬ c3Cfg.base <+: f.originalPath) ∧
    ((runDedup c3Cfg (runDedup c3Cfg c3Cat c3Fs).cat
        (runDedup c3Cfg c3Cat c3Fs).fs).moves = [] ∧
      (runDedup c3Cfg (runDedup c3Cfg c3Cat c3Fs).cat
        (runDedup c3Cfg c3Cat c3Fs).fs).links = [] ∧
      (runDedup c3Cfg (runDedup c3Cfg c3Cat c3Fs).cat
        (runDedup c3Cfg c3Cat c3Fs).fs).fs =
        (runDedup c3Cfg c3Cat c3Fs).fs ∧
      (runDedup c3Cfg (runDedup c3Cfg c3Cat c3Fs).cat
        (runDedup c3Cfg c3Cat c3Fs).fs).cat =
        update_deduplication_statistics (runDedup c3Cfg c3Cat c3Fs).cat
          0 0 0 c3Cfg.ts) :=
  ⟨⟨rfl, by decide, by decide, by decide⟩,
    second_run_quiescent c3Cfg c3Cat c3Fs rfl (by decide) (by decide)
      (by decide)⟩

end DG
